import Mathlib

/-!
Shallow embedding of the windicss utility compilation engine
(`src/lib/index.ts`, the `Processor` class) together with the helper
modules it uses.  Helper modules that are not part of the repository
snapshot (`utils/tools`, `utils/style`, `utils/parser/class`,
`lib/extract`, `lib/variants`, `config`, `utils/algorithm/*`) are
modelled from the specification; every such definition is marked with a
doc comment starting with `Modelled from the spec:`.  Everything in the
`Processor` namespace below is a direct translation of the
corresponding method in `src/lib/index.ts`.

JavaScript idioms are translated as follows: mutation of push-only
accumulators becomes returned lists concatenated in program order,
`undefined` becomes `Option.none`, an uncaught exception or an
infinite recursion becomes the outer `none` of an `Option` result (a
fuel parameter bounds the recursions that the source performs through
mutable tables), and object spread/merge uses association lists with
JavaScript key semantics (later spread wins, in-place update keeps the
key position).
-/

namespace Windi

/-- Association-list lookup, mirroring JavaScript property access `obj[key]`. -/
def lookupA {α : Type} (l : List (String × α)) (k : String) : Option α :=
  match l.find? (fun p => p.1 = k) with
  | some p => some p.2
  | none => none

/-- Association-list update `obj[key] = v`: replaces in place when the key
exists (JavaScript keeps the original key position), appends otherwise. -/
def insertA {α : Type} (l : List (String × α)) (k : String) (v : α) : List (String × α) :=
  if (lookupA l k).isSome then
    l.map (fun p => if p.1 = k then (k, v) else p)
  else l ++ [(k, v)]

/-- Key membership of an association list. -/
def hasKeyA {α : Type} (l : List (String × α)) (k : String) : Bool :=
  (lookupA l k).isSome

/-- Object-spread merge `{...a, ...b}`: keys of `a` in order with values
overridden by `b`, then the keys of `b` that are new, in order. -/
def mergeA {α : Type} (a b : List (String × α)) : List (String × α) :=
  a.map (fun p => match lookupA b p.1 with | some v => (p.1, v) | none => p) ++
    b.filter (fun p => ! hasKeyA a p.1)

/-- Modelled from the spec: whitespace characters recognised by the
class-token splitter (the source splits with the regex `\s`). -/
def isWs (c : Char) : Bool :=
  c = ' ' ∨ c = '\t' ∨ c = '\n' ∨ c = '\r'

/-- Character-level splitter on whitespace (the core `String` traversal
functions are avoided throughout: they are compiled by well-founded
recursion on byte positions, which the kernel cannot evaluate, so each
one is re-implemented structurally over the character list). -/
def splitWsGo (acc : List Char) : List Char → List (List Char)
  | [] => [acc]
  | c :: rest => if isWs c then acc :: splitWsGo [] rest else splitWsGo (acc ++ [c]) rest

/-- Split a string on whitespace, dropping empty fragments (the behaviour
of splitting on the regex `\s+` after a `trim`). -/
def splitWs (s : String) : List String :=
  ((splitWsGo [] s.data).map String.mk).filter (fun t => t ≠ "")

/-- `parts.join(sep)`. -/
def joinSep (sep : String) : List String → String
  | [] => ""
  | x :: rest => rest.foldl (fun acc y => acc ++ sep ++ y) x

/-- `classNames.trim().split(/\s+/g).join(' ')` from `Processor.compile`. -/
def normalizeInput (s : String) : String :=
  joinSep " " (splitWs s)

/-- Character-level `String.splitOn` worker; the fuel is at least the
character count, so it never runs out. -/
def splitOnL (sep : List Char) : Nat → List Char → List Char → List (List Char)
  | 0, acc, _ => [acc]
  | fuel + 1, acc, cs =>
    match cs with
    | [] => [acc]
    | c :: rest =>
      if sep.isPrefixOf (c :: rest) then
        acc :: splitOnL sep fuel [] (List.drop sep.length (c :: rest))
      else splitOnL sep fuel (acc ++ [c]) rest

/-- `s.split(sep)` for a non-empty separator string. -/
def splitOnStr (s sep : String) : List String :=
  if sep = "" then [s]
  else (splitOnL sep.data (s.data.length + 1) [] s.data).map String.mk

/-- Whether a string starts with a given character. -/
def startsWith1 (s : String) (c : Char) : Bool :=
  match s.data with
  | c2 :: _ => c2 = c
  | [] => false

/-- Drop the first `n` characters of a string. -/
def dropStr (n : Nat) (s : String) : String :=
  String.mk (s.data.drop n)

/-- Whether `p` is a prefix of `s`. -/
def isPreStr (p s : String) : Bool :=
  p.data.isPrefixOf s.data

/-- The character count of a string. -/
def strLength (s : String) : Nat :=
  s.data.length

/-- One base-36 digit, as JavaScript `toString(36)` renders it. -/
def b36digit (d : Nat) : Char :=
  if d < 10 then Char.ofNat (48 + d) else Char.ofNat (87 + d)

/-- Digits of a natural number in base 36, most significant first; the
fuel only bounds the digit count and `toBase36` supplies enough. -/
def toBase36Go : Nat → Nat → List Char
  | 0, n => [b36digit n]
  | fuel + 1, n =>
    if n < 36 then [b36digit n]
    else toBase36Go fuel (n / 36) ++ [b36digit (n % 36)]

/-- Render a natural number in base 36, as JavaScript `toString(36)` does. -/
def toBase36 (n : Nat) : String :=
  String.mk (toBase36Go n n)

/-- Modelled from the spec: `hash` (`utils/tools`, not under `src/`) — a
deterministic content hash of a string rendered in base 36.  The claims
only rely on it being a function of its input. -/
def hashStr (s : String) : String :=
  toBase36 (s.data.foldl (fun h c => (h * 33 + c.toNat) % 4294967296) 5381)

/-- Modelled from the spec: `cssEscape` (`utils/algorithm/cssEscape`, not
under `src/`) — escapes characters that are not CSS-identifier safe. -/
def cssEscape (s : String) : String :=
  String.mk (s.toList.foldr
    (fun c acc =>
      if c.isAlphanum ∨ c = '-' ∨ c = '_' then c :: acc else '\\' :: c :: acc) [])

/-- Modelled from the spec: one CSS declaration (`utils/style`, not under
`src/`) — name, optional value, optional comment, important flag. -/
structure Property where
  name : String
  value : Option String := none
  comment : Option String := none
  important : Bool := false
deriving DecidableEq, Repr

/-- Modelled from the spec: the tag distinguishing a plain rule, a
`@keyframes` block (`Keyframes` subclass) and an at-rule container
(`Container` subclass) in the closed Style union. -/
inductive StyleKind where
  | plain
  | keyframes
  | container
deriving DecidableEq, Repr

/-- Modelled from the spec: the ordering metadata of a Style (layer name,
source kind, numeric priority) plus the accumulated at-rule variant list
that `wrapWithVariants` records. -/
structure Meta where
  group : String := "default"
  mtype : String := "utilities"
  order : Nat := 0
  variants : List String := []
deriving DecidableEq, Repr

/-- Modelled from the spec: one CSS rule fragment (`utils/style`, not
under `src/`) — optional selector, ordered declarations, wrapping
at-rules, nested-selector composition helpers (parent/child/pseudo
wrapping), ordering metadata, important flag, and the subclass tag. -/
structure Style where
  selector : Option String := none
  property : List Property := []
  atRules : List String := []
  pseudoClasses : List String := []
  pseudoElements : List String := []
  parentSelectors : List String := []
  childSelectors : List String := []
  important : Bool := false
  kind : StyleKind := .plain
  meta : Meta := {}
deriving DecidableEq, Repr

namespace Style

/-- `new Style()`. -/
def new : Style := {}

/-- `new Container()` — a Style tagged as an at-rule container. -/
def newContainer : Style := { kind := .container }

/-- Modelled from the spec: `Style.extend` folds another fragment into
this one — declarations and every wrapper list are concatenated, the
first defined selector is kept, importance is joined, and the extended
item's ordering metadata is adopted (the variant-wrapping fold ends with
the target Style, whose identity dominates the wrapper). -/
def extend (a b : Style) : Style :=
  { selector := match a.selector with | some s => some s | none => b.selector
    property := a.property ++ b.property
    atRules := a.atRules ++ b.atRules
    pseudoClasses := a.pseudoClasses ++ b.pseudoClasses
    pseudoElements := a.pseudoElements ++ b.pseudoElements
    parentSelectors := a.parentSelectors ++ b.parentSelectors
    childSelectors := a.childSelectors ++ b.childSelectors
    important := a.important || b.important
    kind := a.kind
    meta := b.meta }

/-- `style.isAtrule`: whether the fragment carries at-rule wrappers. -/
def isAtrule (a : Style) : Bool := a.atRules ≠ []

/-- `style.atRule(name)`: wrap in an at-rule. -/
def atRule (a : Style) (name : String) : Style :=
  { a with atRules := a.atRules ++ [name] }

/-- `style.pseudoClass(name)`. -/
def pseudoClass (a : Style) (name : String) : Style :=
  { a with pseudoClasses := a.pseudoClasses ++ [name] }

/-- `style.pseudoElement(name)`. -/
def pseudoElement (a : Style) (name : String) : Style :=
  { a with pseudoElements := a.pseudoElements ++ [name] }

/-- `style.parent(name)`: wrap the rule under an ancestor selector. -/
def parent (a : Style) (name : String) : Style :=
  { a with parentSelectors := a.parentSelectors ++ [name] }

/-- `style.child(name)`. -/
def child (a : Style) (name : String) : Style :=
  { a with childSelectors := a.childSelectors ++ [name] }

/-- `style.updateMeta(group, type, order)`. -/
def updateMeta (a : Style) (group mtype : String) (order : Nat) : Style :=
  { a with meta := { a.meta with group := group, mtype := mtype, order := order } }

/-- Set the selector (`style.selector = s`). -/
def withSelector (a : Style) (s : String) : Style :=
  { a with selector := some s }

end Style

/-- A Style result that is either a single fragment or a list of
fragments, matching the source type `Style | Style[]`. -/
def StyleOrList : Type := Sum Style (List Style)

/-- Flatten `Style | Style[]` into a list, as `toArray` does. -/
def StyleOrList.toList (x : StyleOrList) : List Style :=
  match x with
  | .inl s => [s]
  | .inr l => l

/-- The extraction result type `Style | Style[] | undefined`. -/
def Output : Type := Option StyleOrList

/-- Modelled from the spec: the signature by which `combine()` merges
rules — selector, at-rule wrappers, wrapper lists, important flag and
subclass tag must all agree. -/
def sameSig (a b : Style) : Bool :=
  a.selector = b.selector ∧ a.atRules = b.atRules ∧
    a.pseudoClasses = b.pseudoClasses ∧ a.pseudoElements = b.pseudoElements ∧
    a.parentSelectors = b.parentSelectors ∧ a.childSelectors = b.childSelectors ∧
    a.important = b.important ∧ a.kind = b.kind

/-- Merge one style into an already-combined prefix: concatenate its
declarations into the first rule with the same signature, else append. -/
def combineInto : List Style → Style → List Style
  | [], x => [x]
  | y :: rest, x =>
    if sameSig y x then { y with property := y.property ++ x.property } :: rest
    else y :: combineInto rest x

/-- Modelled from the spec: `combine()` over a list of styles — merge
styles with identical signature into one, declarations concatenated in
first-seen order. -/
def combineStyles (l : List Style) : List Style :=
  l.foldl combineInto []

/-- Insert into a list sorted by a comparator, keeping insertion order
among equal keys (stable). -/
def insertSorted (le : Style → Style → Bool) (x : Style) : List Style → List Style
  | [] => [x]
  | y :: rest => if le x y then x :: y :: rest else y :: insertSorted le x rest

/-- Stable insertion sort by a comparator. -/
def sortStylesBy (le : Style → Style → Bool) (l : List Style) : List Style :=
  l.foldr (insertSorted le) []

/-- Modelled from the spec: the default stylesheet ordering — by layer
priority then numeric order (`sort()`). -/
def defaultLe (a b : Style) : Bool := a.meta.order ≤ b.meta.order

/-- Modelled from the spec: `sortGroup` (`utils/algorithm/sortStyle`, not
under `src/`) — the group-aware comparator used by compile mode. -/
def sortGroupLe (a b : Style) : Bool :=
  if a.meta.group = b.meta.group then a.meta.order ≤ b.meta.order
  else a.meta.order ≤ b.meta.order

/-- Modelled from the spec: an ordered collection of Style entries plus
the vendor-prefixing policy flag (`utils/style`, not under `src/`). -/
structure StyleSheet where
  children : List Style := []
  prefixerFlag : Bool := true
deriving DecidableEq, Repr

namespace StyleSheet

/-- `new StyleSheet()`. -/
def new : StyleSheet := {}

/-- `styleSheet.add(styles)`: append entries; `undefined` is ignored. -/
def add (ss : StyleSheet) (styles : List Style) : StyleSheet :=
  { ss with children := ss.children ++ styles }

/-- `styleSheet.sort()`. -/
def sort (ss : StyleSheet) : StyleSheet :=
  { ss with children := sortStylesBy defaultLe ss.children }

/-- `styleSheet.sortby(sortGroup)`. -/
def sortbyGroup (ss : StyleSheet) : StyleSheet :=
  { ss with children := sortStylesBy sortGroupLe ss.children }

/-- `styleSheet.combine()`. -/
def combine (ss : StyleSheet) : StyleSheet :=
  { ss with children := combineStyles ss.children }

end StyleSheet

/-- The token tree produced by the class parser (`interfaces` Element):
a tagged union of `utility` (optional base-class text — `none` models the
array-content case the Processor skips), `group` (children sharing a
variant prefix) and `alias` (a name to be resolved against the alias
table).  Every variant keeps its variant list, important flag and raw
source text. -/
inductive Element where
  | utility (content : Option String) (variants : List String) (important : Bool) (raw : String)
  | group (children : List Element) (variants : List String) (important : Bool) (raw : String)
  | alias (content : String) (variants : List String) (important : Bool) (raw : String)

namespace Element

/-- The raw source text of an element. -/
def raw : Element → String
  | .utility _ _ _ r => r
  | .group _ _ _ r => r
  | .alias _ _ _ r => r

/-- The variant list of an element. -/
def variants : Element → List String
  | .utility _ v _ _ => v
  | .group _ v _ _ => v
  | .alias _ v _ _ => v

end Element

/-- Peel leading known-variant fragments off the separator-split parts of
a token, stopping at the first unknown fragment and never consuming the
last fragment. -/
def peelGo (known : List String) : List String → List String × List String
  | [] => ([], [])
  | [x] => ([], [x])
  | x :: rest =>
    if x ∈ known then
      let (vs, r) := peelGo known rest
      (x :: vs, r)
    else ([], x :: rest)

/-- Modelled from the spec: how `ClassParser` (`utils/parser/class`, not
under `src/`) handles one whitespace-delimited token — peel leading
`variant<separator>` fragments while they name known variants, strip a
leading `!` as the important marker, recognise a leading `*` as an alias
reference, and otherwise emit a plain utility Element; malformed input
(such as an empty remainder) degrades to a plain utility Element instead
of failing.  Group syntax is not modelled: no claim under study
exercises parenthesised groups, and the Processor's group handling is
still translated faithfully below. -/
def parseToken (sep : String) (known : List String) (tok : String) : Element :=
  let parts := splitOnStr tok sep
  let (vs, restParts) := peelGo known parts
  let rest := joinSep sep restParts
  let (important, rest) :=
    if startsWith1 rest '!' then (true, dropStr 1 rest) else (false, rest)
  if rest = "" then .utility (some tok) [] false tok
  else if startsWith1 rest '*' then .alias (dropStr 1 rest) vs important tok
  else .utility (some rest) vs important tok

/-- Modelled from the spec: `new ClassParser(src, separator, knownVariants).parse()`
— split on top-level whitespace and parse each token. -/
def parseClasses (sep : String) (known : List String) (src : String) : List Element :=
  (splitWs src).map (parseToken sep known)

/-- A configuration theme value: a scalar, a nested mapping, or a
deferred theme function.  A theme function is defunctionalised as the
value it returns when called with the theme accessor and the helper bag
`{negative, breakpoints}` — which is faithful because the engine only
ever applies such functions to exactly those arguments. -/
inductive ThemeVal where
  | str (s : String)
  | obj (entries : List (String × ThemeVal))
  | func (body : ThemeVal)

/-- A theme dictionary: the entries of a `Theme` object. -/
def ThemeDict : Type := List (String × ThemeVal)

instance : Membership (String × ThemeVal) ThemeDict :=
  inferInstanceAs (Membership (String × ThemeVal) (List (String × ThemeVal)))

/-- Whether a theme value is a (still unevaluated) theme function. -/
def ThemeVal.isFunc : ThemeVal → Bool
  | .func _ => true
  | _ => false

mutual

/-- No theme function occurs anywhere inside this value. -/
def ThemeVal.funcFree : ThemeVal → Bool
  | .str _ => true
  | .func _ => false
  | .obj es => funcFreeEntries es

/-- No theme function occurs anywhere inside these entries. -/
def funcFreeEntries : List (String × ThemeVal) → Bool
  | [] => true
  | (_, v) :: rest => v.funcFree && funcFreeEntries rest

end

/-- Calling a theme value when the engine treats it as callable:
`typeof value === 'function' ? value(theme, {negative, breakpoints}) : value`. -/
def ThemeVal.call : ThemeVal → ThemeVal
  | .func body => body
  | v => v

mutual

/-- Modelled from the spec: `combineConfig`
(`utils/algorithm/combineConfig`, not under `src/`) on theme values —
nested mappings are merged recursively, anything else is replaced by the
second argument. -/
def combineTheme : ThemeVal → ThemeVal → ThemeVal
  | .obj ea, .obj eb =>
    .obj (combineEntries ea eb ++ eb.filter (fun p => ! hasKeyA ea p.1))
  | _, b => b

/-- Combine the entries of the first mapping with any same-key values of
the second. -/
def combineEntries : List (String × ThemeVal) → List (String × ThemeVal) → List (String × ThemeVal)
  | [], _ => []
  | (k, v) :: rest, eb =>
    (k, match lookupA eb k with | some w => combineTheme v w | none => v) ::
      combineEntries rest eb

end

/-- The configured `important` option: a boolean or a selector string. -/
inductive BoolOrStr where
  | bool (b : Bool)
  | str (s : String)
deriving DecidableEq, Repr

/-- JavaScript truthiness of an `important` value (`false` and the empty
string are falsy). -/
def truthy : BoolOrStr → Bool
  | .bool b => b
  | .str s => s ≠ ""

/-- The `corePlugins` option: an allow-list array or an override map. -/
inductive CoreOpt where
  | arr (names : List String)
  | obj (overrides : List (String × Bool))

/-- The handle a dynamic utility generator receives.  Modelled from the
spec: it carries the parsed utility (base value, inferred unit/number,
raw modifiers); the claims treat generators as opaque functions of it,
so only the raw class text is carried. -/
structure Utility where
  raw : String
deriving DecidableEq, Repr

/-- A defunctionalised call a plugin handler makes on the plugin-utility
surface during `loadPlugin` (`handler(this.pluginUtils)`).  `addVariantOp`
carries the Style that the plugin's variant generator returns (the
generator is plugin code and is applied exactly once, in `addVariant`);
`addDynamicOp` carries the generator function itself. -/
inductive PluginOp where
  | addVariantOp (name : String) (style : Style)
  | addDynamicOp (key : String) (g : Utility → Output) (layer : String)

mutual

/-- The recognised configuration options.  Option-valued fields model
absent keys; `exclude` is the compiled exclude pattern, modelled as the
predicate the regex denotes.  (`shortcuts`/`alias`, consumed only by
`loadConfig`, and option keys no claim touches are not modelled.) -/
inductive Config where
  | mk
    (presets : List Config)
    (theme : Option ThemeDict)
    (plugins : List PluginSpec)
    (pfx : Option String)
    (importantOpt : Option BoolOrStr)
    (separator : Option String)
    (exclude : Option (String → Bool))
    (corePluginsCfg : Option CoreOpt)
    (prefixerOpt : Option Bool)

/-- A plugin: an optional config fragment plus the defunctionalised
sequence of registration calls its handler performs. -/
inductive PluginSpec where
  | mk (cfg : Option Config) (ops : List PluginOp)

end

namespace Config

/-- The `presets` key. -/
def presets : Config → List Config
  | .mk p _ _ _ _ _ _ _ _ => p

/-- The `theme` key. -/
def theme : Config → Option ThemeDict
  | .mk _ t _ _ _ _ _ _ _ => t

/-- The `plugins` key. -/
def plugins : Config → List PluginSpec
  | .mk _ _ pl _ _ _ _ _ _ => pl

/-- The `prefix` key. -/
def pfx : Config → Option String
  | .mk _ _ _ p _ _ _ _ _ => p

/-- The `important` key. -/
def importantOpt : Config → Option BoolOrStr
  | .mk _ _ _ _ i _ _ _ _ => i

/-- The `separator` key. -/
def separator : Config → Option String
  | .mk _ _ _ _ _ s _ _ _ => s

/-- The `exclude` key. -/
def exclude : Config → Option (String → Bool)
  | .mk _ _ _ _ _ _ e _ _ => e

/-- The `corePlugins` key. -/
def corePluginsCfg : Config → Option CoreOpt
  | .mk _ _ _ _ _ _ _ c _ => c

/-- The `prefixer` key. -/
def prefixerOpt : Config → Option Bool
  | .mk _ _ _ _ _ _ _ _ pr => pr

/-- The empty config `{}`. -/
def empty : Config := .mk [] none [] none none none none none none

/-- Replace the `theme` key. -/
def withTheme : Config → Option ThemeDict → Config
  | .mk p _ pl px i s e c pr, t => .mk p t pl px i s e c pr

/-- Drop the `presets` key (`delete userConfig.presets`). -/
def clearPresets : Config → Config
  | .mk _ t pl px i s e c pr => .mk [] t pl px i s e c pr

/-- Replace the `exclude` key. -/
def withExclude : Config → Option (String → Bool) → Config
  | .mk p t pl px i s _ c pr, e => .mk p t pl px i s e c pr

end Config

/-- Top-level spread merge `{...presets, ...userConfig, theme}` on the
modelled option keys: the user's key wins when present, and the theme is
supplied separately. -/
def mergeConfigs (p u : Config) (theme : ThemeDict) : Config :=
  .mk []
    (some theme)
    (match u.plugins with | [] => p.plugins | l => l)
    (match u.pfx with | some x => some x | none => p.pfx)
    (match u.importantOpt with | some x => some x | none => p.importantOpt)
    (match u.separator with | some x => some x | none => p.separator)
    (match u.exclude with | some x => some x | none => p.exclude)
    (match u.corePluginsCfg with | some x => some x | none => p.corePluginsCfg)
    (match u.prefixerOpt with | some x => some x | none => p.prefixerOpt)

/-- An entry of the per-Processor dynamic generator table
(`_plugin.dynamic`).  The source stores closures; they are
defunctionalised so that the closure created by a re-registration —
which reads its own table slot again at call time — can be evaluated
faithfully: `base` is a built-in generator, `plain` is the
first-registration closure of `addDynamic` (which applies `updateMeta`
to accepted output), and `chained` is the re-registration closure
`(Utility) => deepCopy(this._plugin.dynamic[key])(Utility) || generator(...)`
(`deepCopy` is behaviour-preserving on functions, so the call goes to
whatever the table holds under `key` when the closure runs). -/
inductive DynEntry where
  | base (g : Utility → Output)
  | plain (g : Utility → Output) (layer : String) (order : Nat)
  | chained (key : String) (g : Utility → Output)

/-- Whether an entry is a re-registration closure. -/
def DynEntry.isChained : DynEntry → Bool
  | .chained _ _ => true
  | _ => false

/-- `updateMeta` applied across a `Style | Style[]` output, as the
first-registration closure of `addDynamic` does. -/
def applyMetaOut (o : StyleOrList) (layer : String) (order : Nat) : StyleOrList :=
  match o with
  | .inl st => .inl (st.updateMeta layer "plugin" order)
  | .inr l => .inr (l.map (fun st => st.updateMeta layer "plugin" order))

/-- Invoke a dynamic-table entry on a utility.  The outer `none` models a
JavaScript failure: either the infinite recursion of a re-registration
closure re-entering its own slot (bounded here by `fuel`) or a
`TypeError` from calling a missing table entry; `some none` is an
ordinary decline. -/
def evalDyn (table : List (String × DynEntry)) : Nat → DynEntry → Utility → Option Output
  | _, .base g, u => some (g u)
  | _, .plain g layer order, u =>
    some (match g u with
          | none => none
          | some out => some (applyMetaOut out layer order))
  | 0, .chained _ _, _ => none
  | fuel + 1, .chained key g, u =>
    match lookupA table key with
    | none => none
    | some e =>
      match evalDyn table fuel e u with
      | none => none
      | some o => some (match o with | some x => some x | none => g u)

/-- Modelled from the spec: `layerOrder` (`config/order`, not under
`src/`) — the fixed layer-priority table. -/
def layerOrder : List (String × Nat) :=
  [("base", 10), ("components", 150), ("shortcuts", 160), ("utilities", 20000)]

/-- Modelled from the spec: default core-plugin names derived from the
fixed plugin ordering table (`config/order`, not under `src/`); a small
representative list, since no claim depends on its contents. -/
def defaultCoreNames : List String := ["padding", "margin", "backgroundColor"]

/-- Modelled from the spec: the built-in static utility table
(`lib/utilities`, not under `src/`); a small representative fragment,
since no claim depends on its contents. -/
def staticUtilities : List (String × Style) :=
  [ ("p-2", { property := [{ name := "padding", value := some "0.5rem" }] }),
    ("m-1", { property := [{ name := "margin", value := some "0.25rem" }] }) ]

/-- Modelled from the spec: the built-in dynamic utility table
(`lib/utilities`, not under `src/`); one representative generator that
accepts a single value and declines anything else. -/
def dynamicUtilities : List (String × DynEntry) :=
  [ ("bg", .base (fun u =>
      if u.raw = "bg-red-500" then
        some (.inl { property := [{ name := "background-color", value := some "#ef4444" }] })
      else none)) ]

/-- The per-Processor state: resolved config, variant table, caches and
plugin registry (`Processor`'s private fields in `src/lib/index.ts`).
The `_theme` field is represented by `config.theme`, which the source
keeps it synchronised with. -/
structure Processor where
  config : Config := Config.empty
  variants : List (String × Style) := []
  cacheHtml : List String := []
  cacheClasses : List String := []
  cacheUtilities : List String := []
  cacheVariants : List String := []
  pluginStatic : List (String × List Style) := []
  pluginDynamic : List (String × DynEntry) := []
  pluginUtilities : List (String × List Style) := []
  pluginComponents : List (String × List Style) := []
  pluginPreflights : List (String × List Style) := []
  pluginShortcuts : List (String × List Style) := []
  pluginAlias : List (String × List Element) := []
  pluginCore : Option (List (String × Bool)) := none

namespace Processor

/-- `this.config('separator', ':')`. -/
def configSeparator (s : Processor) : String :=
  s.config.separator.getD ":"

/-- `this._config.exclude && testRegexr(selector, this._config.exclude)`:
`testRegexr` (`utils/tools`, not under `src/`) is modelled from the spec
as applying the predicate the exclude pattern denotes. -/
def excluded (s : Processor) (selector : String) : Bool :=
  match s.config.exclude with
  | some p => p selector
  | none => false

/-- `Processor.e(selector)`. -/
def e (s : Processor) (selector : String) : String :=
  let _ := s
  cssEscape selector

/-- `Processor.removePrefix(className)` (`src/lib/index.ts` 309-312):
strip the configured prefix from the front of a class name when it
matches; a falsy prefix leaves the name unchanged. -/
def removePrefix (s : Processor) (className : String) : String :=
  match s.config.pfx with
  | some p => if p ≠ "" ∧ isPreStr p className then dropStr (strLength p) className else className
  | none => className

/-- `Processor.markAsImportant(style, force)` (`src/lib/index.ts`
314-326): resolve the effective important value (a truthy `force` wins,
else the configured `important`, else `false`); a truthy boolean sets the
important flag on the rule and every declaration, a truthy string wraps
the rule under that ancestor selector instead. -/
def markAsImportant (s : Processor) (style : Style) (force : BoolOrStr := .bool false) : Style :=
  let imp := if truthy force then force else s.config.importantOpt.getD (.bool false)
  if truthy imp then
    match imp with
    | .str sel => style.parent sel
    | .bool _ =>
      { style with
        important := true
        property := style.property.map (fun p => { p with important := true }) }
  else style

/-- The combined static lookup `extract` performs.  Modelled from the
spec: the built-in static table first, then plugin-contributed
`utilities` and `components` fragments. -/
def lookupStaticAll (s : Processor) (base : String) : Option (List Style) :=
  match lookupA staticUtilities base with
  | some st => some [st]
  | none =>
    match lookupA s.pluginUtilities base with
    | some l => some l
    | none => lookupA s.pluginComponents base

/-- Annotate a matched static fragment with a trailing comment naming
the matched rule, when requested. -/
def withCommentIf (addComment : Bool) (name : String) (st : Style) : Style :=
  if addComment then
    { st with property := st.property.map (fun p => { p with comment := some name }) }
  else st

/-- Try the dynamic generators in registration order; the first
acceptance wins, declines continue, and a generator failure (outer
`none`) aborts. -/
def tryDynamic (s : Processor) (fuel : Nat) (base : String) :
    List (String × DynEntry) → Option Output
  | [] => some none
  | (key, entry) :: rest =>
    if isPreStr key base then
      match evalDyn s.pluginDynamic fuel entry { raw := base } with
      | none => none
      | some none => tryDynamic s fuel base rest
      | some (some out) => some (some out)
    else tryDynamic s fuel base rest

/-- Modelled from the spec: `extract` (`lib/extract`, not under `src/`) —
a configured prefix must match and is stripped before lookup; then an
exact static-table match returns the cloned fragment (optionally
annotated with a comment), else the dynamic generators (built-in table
then plugin-contributed ones) are tried in order, the first acceptance
winning; no match yields a decline (`some none`), reported as "ignored"
by the callers.  The outer `none` models a generator failure. -/
def extract (s : Processor) (fuel : Nat) (className : String) (addComment : Bool := false)
    (pfx : Option String := none) : Option Output :=
  let base? : Option String :=
    match pfx with
    | some p =>
      if p = "" then some className
      else if isPreStr p className then some (dropStr (strLength p) className) else none
    | none => some className
  match base? with
  | none => some none
  | some base =>
    match lookupStaticAll s base with
    | some styles => some (some (.inr (styles.map (withCommentIf addComment base))))
    | none => tryDynamic s fuel base (dynamicUtilities ++ s.pluginDynamic)

/-- The variant-generator fold of `wrapWithVariants` applied to one
non-keyframe style (`src/lib/index.ts` 294-305): look up every variant's
Style, fold them together with `extend` while collecting the at-rules
the accumulator exposes before each step, extend with the target style,
re-wrap containers, and record collected at-rules in the metadata.  A
missing variant name is the JavaScript `TypeError`, hence `none`. -/
def wrapOne (s : Processor) (variants : List String) (style : Style) : Option Style :=
  if style.kind = .keyframes then some style
  else
    match variants.mapM (fun i => lookupA s.variants i) with
    | none => none
    | some varStyles =>
      let folded := varStyles.foldl
        (fun (acc : Style × List String) cur =>
          (acc.1.extend cur,
            if acc.1.isAtrule then acc.2 ++ [acc.1.atRules.headD ""] else acc.2))
        (Style.new, [])
      let wrapped := folded.1.extend style
      let wrapped := if style.kind = .container then Style.newContainer.extend wrapped else wrapped
      let wrapped :=
        if folded.2 ≠ [] then { wrapped with meta := { wrapped.meta with variants := folded.2 } }
        else wrapped
      some wrapped

/-- `Processor.wrapWithVariants(variants, styles)` (`src/lib/index.ts`
287-307): normalise to a list, return it unchanged for an empty variant
list, and otherwise wrap each non-keyframe style with the variant
generators' styles (keyframe fragments pass through untouched). -/
def wrapWithVariants (s : Processor) (variants : List String) (styles : StyleOrList) :
    Option (List Style) :=
  let styles := styles.toList
  if variants = [] then some styles
  else styles.mapM (wrapOne s variants)

/-- `Processor.addDynamic(key, generator, options)` (`src/lib/index.ts`
997-1025): a first registration stores a closure that applies the
generator and stamps accepted output with the layer metadata; a
re-registration stores the closure that re-reads the table slot under
`key` and falls back to the new generator when that call declines. -/
def addDynamic (s : Processor) (key : String) (g : Utility → Output)
    (layer : String := "utilities") : Processor :=
  let order := (lookupA layerOrder layer).getD 0 + 1
  let entry : DynEntry :=
    if hasKeyA s.pluginDynamic key then .chained key g else .plain g layer order
  { s with pluginDynamic := insertA s.pluginDynamic key entry }

/-- `Processor.addVariant(name, generator)` (`src/lib/index.ts`
1081-1094): the plugin's generator is applied once to the
selector-wrapping helper bag, and the resulting Style (carried here
already applied, since the generator is plugin code) is stored under the
name while the name is appended to the known-variant cache. -/
def addVariant (s : Processor) (name : String) (style : Style) : Processor :=
  { s with
    variants := insertA s.variants name style
    cacheVariants := s.cacheVariants ++ [name] }

end Processor

/-- The per-call accumulators of `interpret`/`compile` (`success`,
`ignored`, the stylesheet entries).  The source mutates push-only
arrays; each processing step here returns its contribution and the
driver concatenates contributions in program order. -/
structure Delta where
  success : List String := []
  ignored : List String := []
  sheet : List Style := []
deriving DecidableEq, Repr

/-- Concatenate two accumulator contributions in program order. -/
def Delta.app (a b : Delta) : Delta :=
  { success := a.success ++ b.success
    ignored := a.ignored ++ b.ignored
    sheet := a.sheet ++ b.sheet }

instance : Append Delta := ⟨Delta.app⟩

/-- The `_hIgnored` helper shared by `interpret` and `compile`
(`src/lib/index.ts` 359-370 and 492-503): when a caller-supplied
`handleIgnored` callback yields styles they are added and the name is
pushed to `success`, otherwise the name is pushed to `ignored`; the name
is then pushed to `ignored` unconditionally (so a declined callback
records it twice). -/
def hIgnoredDelta (hI : Option (String → Output)) (className : String) : Delta :=
  match hI with
  | some f =>
    match f className with
    | some styles => { success := [className], ignored := [className], sheet := styles.toList }
    | none => { ignored := [className, className] }
  | none => { ignored := [className] }

namespace Processor

/-- The `_gStyle` closure of `interpret` (`src/lib/index.ts` 372-414):
an excluded selector is recorded as ignored before extraction; a
variant-carrying selector found among plugin utilities/components is
emitted directly; otherwise the base class is extracted (with the
configured prefix), non-keyframe results get the escaped selector and
importance, and the result is variant-wrapped. -/
def gStyleI (s : Processor) (fuel : Nat) (hI : Option (String → Output))
    (baseClass : String) (variants : List String) (selector : String)
    (important : Bool) : Option Delta :=
  if s.excluded selector then some { ignored := [selector] }
  else if variants ≠ [] ∧ (hasKeyA s.pluginUtilities selector ∨ hasKeyA s.pluginComponents selector) then
    some { success := [selector], sheet := (lookupA s.pluginUtilities selector).getD [] }
  else
    match s.extract fuel baseClass false s.config.pfx with
    | none => none
    | some none => some (hIgnoredDelta hI selector)
    | some (some result) =>
      let escaped := "." ++ cssEscape selector
      let result : StyleOrList :=
        match result with
        | .inl st => .inl (s.markAsImportant (st.withSelector escaped) (.bool important))
        | .inr l => .inr (l.map (fun i =>
            if i.kind = .keyframes then i
            else s.markAsImportant (i.withSelector escaped) (.bool important)))
      match s.wrapWithVariants variants result with
      | none => none
      | some w => some { success := [selector], sheet := w }

mutual

/-- The `_gAst` walk of `interpret` (`src/lib/index.ts` 438-457),
threading the processed-utility cache (read and pushed only when
`ignoreProcessed`): utilities go through `_gStyle`, groups through
`_hGroup`, registered aliases re-enter `_gAst` on their expansion
(bounded by `fuel`, since a cyclic alias table makes the source recurse
forever), anything else is recorded as ignored. -/
def gAstI (s : Processor) (hI : Option (String → Output)) (ip : Bool) :
    Nat → List Element → List String → Option (Delta × List String)
  | _, [], cu => some ({}, cu)
  | fuel, e :: rest, cu =>
    if ip ∧ e.raw ∈ cu then gAstI s hI ip fuel rest cu
    else
      let cu := if ip then cu ++ [e.raw] else cu
      match e with
      | .utility content variants important raw =>
        let step : Option Delta :=
          match content with
          | some c => if c ≠ "" then gStyleI s fuel hI c variants raw important else some {}
          | none => some {}
        match step with
        | none => none
        | some d =>
          match gAstI s hI ip fuel rest cu with
          | none => none
          | some (d2, cu2) => some (d ++ d2, cu2)
      | .group children variants important _ =>
        match evalListI s fuel hI variants important [] children with
        | none => none
        | some d =>
          match gAstI s hI ip fuel rest cu with
          | none => none
          | some (d2, cu2) => some (d ++ d2, cu2)
      | .alias c _ _ raw =>
        match lookupA s.pluginAlias c with
        | some expansion =>
          match fuel with
          | 0 => none
          | f + 1 =>
            match gAstI s hI ip f expansion cu with
            | none => none
            | some (d, cu1) =>
              match gAstI s hI ip (f + 1) rest cu1 with
              | none => none
              | some (d2, cu2) => some (d ++ d2, cu2)
        | none =>
          match gAstI s hI ip fuel rest cu with
          | none => none
          | some (d2, cu2) => some (hIgnoredDelta hI raw ++ d2, cu2)
termination_by fuel ast _ => (fuel, sizeOf ast)

/-- The element loop inside `_hGroup` of `interpret`: apply `_eval` to
each child in order. -/
def evalListI (s : Processor) (fuel : Nat) (hI : Option (String → Output))
    (objVariants : List String) (objImportant : Bool) (parentVariants : List String) :
    List Element → Option Delta
  | [] => some {}
  | u :: rest =>
    match evalUI s fuel hI objVariants objImportant parentVariants u with
    | none => none
    | some d =>
      match evalListI s fuel hI objVariants objImportant parentVariants rest with
      | none => none
      | some d2 => some (d ++ d2)
termination_by elems => (fuel, sizeOf elems)

/-- The `_eval` closure of `interpret`'s `_hGroup` (`src/lib/index.ts`
416-436): a child group recurses with the enclosing group's variants as
the new parent variants, a registered alias expands each expansion
element through `_eval` itself (bounded by `fuel`), and anything with
string content is treated as a utility whose selector joins the
accumulated variants with `:` (prefixed with `!` when important). -/
def evalUI (s : Processor) (fuel : Nat) (hI : Option (String → Output))
    (objVariants : List String) (objImportant : Bool) (parentVariants : List String) :
    Element → Option Delta
  | .group children variants important _ =>
    evalListI s fuel hI variants important objVariants children
  | .alias c variants important raw =>
    match lookupA s.pluginAlias c with
    | some expansion =>
      match fuel with
      | 0 => none
      | f + 1 => evalListI s f hI objVariants objImportant parentVariants expansion
    | none =>
      let vs := parentVariants ++ objVariants ++ variants
      let imp := objImportant || important
      let selector := (if imp then "!" else "") ++ joinSep ":" (vs ++ [c])
      let _ := raw
      gStyleI s fuel hI c vs selector imp
  | .utility content variants important _ =>
    match content with
    | some c =>
      let vs := parentVariants ++ objVariants ++ variants
      let imp := objImportant || important
      let selector := (if imp then "!" else "") ++ joinSep ":" (vs ++ [c])
      gStyleI s fuel hI c vs selector imp
    | none => some {}
termination_by e => (fuel, sizeOf e)

end

/-- The result record of `Processor.interpret`. -/
structure InterpretResult where
  success : List String
  ignored : List String
  styleSheet : StyleSheet
deriving DecidableEq, Repr

/-- `Processor.interpret(classNames, ignoreProcessed, handleIgnored)`
(`src/lib/index.ts` 348-468): parse the class string with the known
variants, walk the token tree, and return the sorted stylesheet with
the success and ignored lists (clearing the vendor-prefixer flag when
the config disables it).  The updated Processor carries the
processed-utility cache; `none` models an uncaught JavaScript failure
(unknown variant lookup or cyclic alias expansion). -/
def interpret (s : Processor) (classNames : String) (ignoreProcessed : Bool := false)
    (hI : Option (String → Output) := none) (fuel : Nat := 99) :
    Option (InterpretResult × Processor) :=
  let ast := parseClasses s.configSeparator s.cacheVariants classNames
  match gAstI s hI ignoreProcessed fuel ast s.cacheUtilities with
  | none => none
  | some (d, cu) =>
    let sheet : StyleSheet := { children := d.sheet, prefixerFlag := s.config.prefixerOpt == some true }
    some ({ success := d.success, ignored := d.ignored, styleSheet := sheet.sort },
      { s with cacheUtilities := cu })

/-- The `_gStyle` closure of `compile` (`src/lib/index.ts` 505-547):
like interpret's, but every non-keyframe fragment receives the one
synthesized build selector, keyframe fragments in list results get
ordering priority 20, and extraction runs without a prefix argument
(compile strips the prefix from base tokens before calling). -/
def gStyleC (s : Processor) (fuel : Nat) (showComment : Bool) (hI : Option (String → Output))
    (buildSelector : String) (baseClass : String) (variants : List String)
    (selector : String) (important : Bool) : Option Delta :=
  if s.excluded selector then some { ignored := [selector] }
  else if variants ≠ [] ∧ (hasKeyA s.pluginUtilities selector ∨ hasKeyA s.pluginComponents selector) then
    some { success := [selector], sheet := (lookupA s.pluginUtilities selector).getD [] }
  else
    match s.extract fuel baseClass showComment none with
    | none => none
    | some none => some (hIgnoredDelta hI selector)
    | some (some result) =>
      let result : StyleOrList :=
        match result with
        | .inl st => .inl (s.markAsImportant (st.withSelector buildSelector) (.bool important))
        | .inr l => .inr (l.map (fun i =>
            if i.kind = .keyframes then { i with meta := { i.meta with order := 20 } }
            else s.markAsImportant (i.withSelector buildSelector) (.bool important)))
      match s.wrapWithVariants variants result with
      | none => none
      | some w => some { success := [selector], sheet := w }

mutual

/-- The element loop inside `_hGroup` of `compile` (`src/lib/index.ts`
549-566). -/
def evalListC (s : Processor) (fuel : Nat) (showComment : Bool) (hI : Option (String → Output))
    (buildSelector : String) (objVariants : List String) (objImportant : Bool)
    (parentVariants : List String) : List Element → Option Delta
  | [] => some {}
  | u :: rest =>
    match evalUC s fuel showComment hI buildSelector objVariants objImportant parentVariants u with
    | none => none
    | some d =>
      match evalListC s fuel showComment hI buildSelector objVariants objImportant parentVariants rest with
      | none => none
      | some d2 => some (d ++ d2)

/-- One child step of `compile`'s `_hGroup`: a nested group recurses
with the enclosing group's variants, anything with string content
(utility or alias — compile has no alias expansion inside groups) is
compiled with the prefix stripped and a selector joining the variants
with `:` (with no `!` marker, unlike interpret). -/
def evalUC (s : Processor) (fuel : Nat) (showComment : Bool) (hI : Option (String → Output))
    (buildSelector : String) (objVariants : List String) (objImportant : Bool)
    (parentVariants : List String) : Element → Option Delta
  | .group children variants important _ =>
    evalListC s fuel showComment hI buildSelector variants important objVariants children
  | .alias c variants important _ =>
    let vs := parentVariants ++ objVariants ++ variants
    let selector := joinSep ":" (vs ++ [c])
    gStyleC s fuel showComment hI buildSelector (s.removePrefix c) vs selector (objImportant || important)
  | .utility content variants important _ =>
    match content with
    | some c =>
      let vs := parentVariants ++ objVariants ++ variants
      let selector := joinSep ":" (vs ++ [c])
      gStyleC s fuel showComment hI buildSelector (s.removePrefix c) vs selector (objImportant || important)
    | none => some {}

end

/-- The top-level token loop of `compile` (`src/lib/index.ts` 568-580):
utilities are compiled with the prefix stripped, groups go through
`_hGroup`, and anything else (including aliases, which compile does not
expand) is recorded as ignored. -/
def compileAstGo (s : Processor) (fuel : Nat) (showComment : Bool) (hI : Option (String → Output))
    (buildSelector : String) : List Element → Option Delta
  | [] => some {}
  | e :: rest =>
    let step : Option Delta :=
      match e with
      | .utility content variants important raw =>
        match content with
        | some c =>
          if c ≠ "" then gStyleC s fuel showComment hI buildSelector (s.removePrefix c) variants raw important
          else some {}
        | none => some {}
      | .group children variants important _ =>
        evalListC s fuel showComment hI buildSelector variants important [] children
      | .alias _ _ _ raw => some (hIgnoredDelta hI raw)
    match step with
    | none => none
    | some d =>
      match compileAstGo s fuel showComment hI buildSelector rest with
      | none => none
      | some d2 => some (d ++ d2)

/-- The result record of `Processor.compile`. -/
structure CompileResult where
  success : List String
  ignored : List String
  className : Option String
  styleSheet : StyleSheet
deriving DecidableEq, Repr

/-- The class name `compile` synthesizes before walking the tree
(`src/lib/index.ts` 488): the caller-supplied output name if given,
else the prefix concatenated with the hash of the whitespace-normalized
input. -/
def compileName (pfx : String) (classNames : String) (outputClassName : Option String) : String :=
  outputClassName.getD (pfx ++ hashStr (normalizeInput classNames))

/-- `Processor.compile(classNames, prefix, showComment, ignoreGenerated,
handleIgnored, outputClassName)` (`src/lib/index.ts` 470-591): parse,
synthesize the one output class name, short-circuit with empty lists
when `ignoreGenerated` finds the name already emitted, otherwise walk
the tree accumulating under the synthesized selector, return the
returned name only when something succeeded (recording it in the
emitted-classes cache when `ignoreGenerated`), and sort/combine the
sheet group-aware.  `none` models an uncaught JavaScript failure. -/
def compile (s : Processor) (classNames : String) (pfx : String := "windi-")
    (showComment : Bool := false) (ignoreGenerated : Bool := false)
    (hI : Option (String → Output) := none) (outputClassName : Option String := none)
    (fuel : Nat := 99) : Option (CompileResult × Processor) :=
  let ast := parseClasses s.configSeparator s.cacheVariants classNames
  let className := compileName pfx classNames outputClassName
  if ignoreGenerated ∧ className ∈ s.cacheClasses then
    some ({ success := [], ignored := [], className := some className, styleSheet := .new }, s)
  else
    let buildSelector := "." ++ className
    match compileAstGo s fuel showComment hI buildSelector ast with
    | none => none
    | some d =>
      let finalName := if d.success ≠ [] then some className else none
      let s' :=
        if ignoreGenerated ∧ finalName.isSome then
          { s with cacheClasses := s.cacheClasses ++ [className] }
        else s
      let sheet : StyleSheet := { children := d.sheet, prefixerFlag := s.config.prefixerOpt == some true }
      some ({ success := d.success, ignored := d.ignored, className := finalName,
              styleSheet := sheet.sortbyGroup.combine }, s')

end Processor

/-- Remove a key from an association list (`delete obj[key]`). -/
def removeKeyA {α : Type} (l : List (String × α)) (k : String) : List (String × α) :=
  l.filter (fun p => p.1 ≠ k)

/-- The entries of a theme value when the engine iterates it with
`Object.entries` (non-objects have no enumerable entries). -/
def ThemeVal.entriesOf : ThemeVal → ThemeDict
  | .obj es => es
  | _ => []

/-- Whether a theme value is a mapping (`typeof value === 'object'`). -/
def ThemeVal.isObj : ThemeVal → Bool
  | .obj _ => true
  | _ => false

/-- JavaScript truthiness of a theme value (only the empty string is
falsy among the modelled values). -/
def ThemeVal.truthyV : ThemeVal → Bool
  | .str s => s ≠ ""
  | _ => true

/-- `Processor._reduceFunction(theme, extendTheme)` (`src/lib/index.ts`
150-167): fold every `extend` entry into the theme — a function-valued
theme entry becomes a function combining both results, an object-valued
entry becomes a function combining the object with the extension, and
anything else is replaced by the extension value.  Theme functions are
defunctionalised, so applying one yields its stored body. -/
def reduceFunction (theme : ThemeDict) (ext : ThemeDict) : ThemeDict :=
  ext.foldl
    (fun th p =>
      match lookupA th p.1 with
      | some (.func body) => insertA th p.1 (.func (combineTheme body p.2.call))
      | some (.obj o) => insertA th p.1 (.func (combineTheme (.obj o) p.2.call))
      | _ => insertA th p.1 p.2)
    theme

/-- The theme-merge core of `Processor._resolveConfig` (`src/lib/index.ts`
136-147), after the presets have been folded: extract the user theme's
`extend` fragment, copy the remaining user theme keys over the preset
theme (`{...value}` is the identity in this pure model), fold the extend
fragment in with `_reduceFunction`, and spread the user config over the
presets with the merged theme. -/
def resolveConfigCore (u p : Config) : Config :=
  let userTheme := u.theme
  let extendTheme : ThemeDict :=
    match userTheme with
    | some t => match lookupA t "extend" with | some (.obj d) => d | _ => []
    | none => []
  let theme0 : ThemeDict := p.theme.getD []
  let theme1 :=
    match userTheme with
    | some t => (removeKeyA t "extend").foldl (fun th q => insertA th q.1 q.2) theme0
    | none => theme0
  let theme2 := reduceFunction theme1 extendTheme
  mergeConfigs p u theme2

mutual

/-- The presets-nesting size of a config, used only as the termination
measure of the preset-folding recursion. -/
def Config.psize : Config → Nat
  | .mk ps _ _ _ _ _ _ _ _ => 1 + psizeList ps

/-- The summed presets-nesting size of a config list. -/
def psizeList : List Config → Nat
  | [] => 0
  | c :: rest => Config.psize c + psizeList rest

end

theorem Config.psize_pos (c : Config) : 0 < c.psize := by
  cases c with
  | mk ps t pl px i sep e co pr => simp [Config.psize]

theorem Config.psize_withTheme (c : Config) (t : Option ThemeDict) :
    (c.withTheme t).psize = c.psize := by
  cases c with
  | mk ps th pl px i sep e co pr => simp [Config.psize, Config.withTheme]

/-- The extend-stripping a preset undergoes before being folded
(`delete p.theme.extend` under the truthiness guard of
`src/lib/index.ts` 173-176). -/
def stripThemeExtend (p : Config) : Config :=
  match p.theme with
  | some t =>
    match lookupA t "extend" with
    | some v => if v.truthyV then p.withTheme (some (removeKeyA t "extend")) else p
    | none => p
  | none => p

/-- The extend accumulation a preset contributes
(`this._reduceFunction(extend, p.theme.extend)` under the same guard). -/
def presetExtendAcc (p : Config) (ext : ThemeDict) : ThemeDict :=
  match p.theme with
  | some t =>
    match lookupA t "extend" with
    | some v => if v.truthyV then reduceFunction ext v.entriesOf else ext
    | none => ext
  | none => ext

theorem psize_stripThemeExtend (p : Config) : (stripThemeExtend p).psize = p.psize := by
  unfold stripThemeExtend
  repeat' split
  all_goals simp [Config.psize_withTheme]

mutual

/-- `Processor._resolveConfig(userConfig, presets)` (`src/lib/index.ts`
130-148): resolve and fold any presets first (the folded preset config
has no `presets` key, so its recursive resolution is exactly the
theme-merge core), then merge the user config over them. -/
def _resolveConfig : Config → Config → Config
  | .mk ps t pl px i sep e c pr, p =>
    if ps.isEmpty then resolveConfigCore (.mk [] t pl px i sep e c pr) p
    else
      let resolved := _resolvePresets ps
      let p2 := resolveConfigCore resolved p
      resolveConfigCore (.mk [] t pl px i sep e c pr) p2
termination_by u _ => 3 * u.psize
decreasing_by
  simp only [Config.psize]
  omega

/-- `Processor._resolvePresets(presets)` (`src/lib/index.ts` 169-185):
fold the presets left-to-right, accumulating their `theme.extend`
fragments with `_reduceFunction`, and attach the accumulated extension
to the folded config's theme. -/
def _resolvePresets (ps : List Config) : Config :=
  let r := _resolvePresetsGo ps Config.empty []
  match r.1.theme with
  | some t => r.1.withTheme (some (insertA t "extend" (.obj r.2)))
  | none => r.1.withTheme (some [("extend", .obj r.2)])
termination_by 3 * psizeList ps + 2
decreasing_by
  omega

/-- The `presets.forEach` loop of `_resolvePresets`. -/
def _resolvePresetsGo : List Config → Config → ThemeDict → Config × ThemeDict
  | [], config, ext => (config, ext)
  | p :: rest, config, ext =>
    let ext2 := presetExtendAcc p ext
    let config2 := _resolveConfig (stripThemeExtend p) config
    _resolvePresetsGo rest config2 ext2
termination_by l _ _ => 3 * psizeList l + 1
decreasing_by
  · simp only [psize_stripThemeExtend, psizeList]
    have := Config.psize_pos p
    omega
  · simp only [psizeList]
    have := Config.psize_pos p
    omega

end

/-- Replace every function-valued entry of a dictionary, at its top
level, by the value it returns. -/
def mapTopCall (d : ThemeDict) : ThemeDict :=
  d.map (fun p => (p.1, match p.2 with | .func b => b | v => v))

/-- `Processor._resolveFunction(config)` (`src/lib/index.ts` 187-201):
evaluate every function-valued entry at the top level of `config.theme`
and of `config.theme.extend`, replacing it in place with its result. -/
def _resolveFunction (c : Config) : Config :=
  match c.theme with
  | none => c
  | some t =>
    let ext := lookupA t "extend"
    let t1 := mapTopCall t
    let t2 :=
      match ext with
      | some (.obj e) => insertA t1 "extend" (.obj (mapTopCall e))
      | _ => t1
    c.withTheme (some t2)

/-- The configured responsive screens, read from `theme('screens')`. -/
def screensOf (c : Config) : List (String × String) :=
  match c.theme with
  | some t =>
    match lookupA t "screens" with
    | some (.obj es) => es.filterMap (fun p => match p.2 with | .str v => some (p.1, v) | _ => none)
    | _ => []
  | none => []

/-- Modelled from the spec: the fixed state/pseudo variant table of the
built-in variant resolver (`lib/variants`, not under `src/`); a small
representative fragment. -/
def builtinStateVariants : List (String × Style) :=
  [ ("hover", Style.new.pseudoClass "hover"),
    ("focus", Style.new.pseudoClass "focus"),
    ("active", Style.new.pseudoClass "active"),
    ("dark", Style.new.parent ".dark") ]

/-- Modelled from the spec: `resolveVariants(config)` (`lib/variants`,
not under `src/`) — the built-in variant table merged from the
responsive screen variants (each a `@media` wrapper) and the fixed
state table, as `Processor.resolveVariants` spreads them. -/
def resolveVariantsBuiltin (c : Config) : List (String × Style) :=
  mergeA
    ((screensOf c).map (fun p => (p.1, Style.new.atRule ("@media (min-width: " ++ p.2 ++ ")"))))
    builtinStateVariants

/-- Modelled from the spec: `combineConfig` on two whole config objects
— a deep merge where the second config's options win and the themes are
combined entry-wise. -/
def combineDict (a b : ThemeDict) : ThemeDict :=
  combineEntries a b ++ b.filter (fun p => ! hasKeyA a p.1)

/-- Modelled from the spec: `combineConfig(config, this._config)` as
`loadPlugin` uses it — the Processor's current options win over the
plugin's defaults, themes merge entry-wise. -/
def combineConfigC (a b : Config) : Config :=
  .mk
    (match b.presets with | [] => a.presets | l => l)
    (match a.theme, b.theme with
      | some ta, some tb => some (combineDict ta tb)
      | some ta, none => some ta
      | none, tb => tb)
    (match b.plugins with | [] => a.plugins | l => l)
    (match b.pfx with | some x => some x | none => a.pfx)
    (match b.importantOpt with | some x => some x | none => a.importantOpt)
    (match b.separator with | some x => some x | none => a.separator)
    (match b.exclude with | some x => some x | none => a.exclude)
    (match b.corePluginsCfg with | some x => some x | none => a.corePluginsCfg)
    (match b.prefixerOpt with | some x => some x | none => a.prefixerOpt)

/-- The shallow extend merge of `loadPlugin` (`src/lib/index.ts`
865-874): each `extend` entry is spread over an object-valued theme
entry, replaces a non-object one when the extension is an object, and is
dropped otherwise. -/
def pluginExtendMerge (pluginTheme : ThemeDict) (ext : ThemeDict) : ThemeDict :=
  ext.foldl
    (fun th p =>
      match lookupA th p.1 with
      | some tv =>
        if tv.isObj then insertA th p.1 (.obj (mergeA tv.entriesOf p.2.entriesOf))
        else if p.2.isObj then insertA th p.1 p.2
        else th
      | none => if p.2.isObj then insertA th p.1 p.2 else th)
    pluginTheme

/-- `_addPluginCache`-style append into a plugin registry layer
(`src/lib/index.ts` 217-222). -/
def addPluginCacheA (l : List (String × List Style)) (k : String) (v : List Style) :
    List (String × List Style) :=
  match lookupA l k with
  | some old => insertA l k (old ++ v)
  | none => l ++ [(k, v)]

namespace Processor

/-- `Processor.resolveVariants()` without a type argument
(`src/lib/index.ts` 250-258): the merged built-in table. -/
def resolveVariants (s : Processor) : List (String × Style) :=
  resolveVariantsBuiltin s.config

/-- Run the defunctionalised registration calls of a plugin handler. -/
def loadPluginOps (s : Processor) : List PluginOp → Processor
  | [] => s
  | op :: rest =>
    let s2 :=
      match op with
      | .addVariantOp n st => s.addVariant n st
      | .addDynamicOp k g layer => s.addDynamic k g layer
    loadPluginOps s2 rest

/-- `Processor.loadPlugin({handler, config})` (`src/lib/index.ts`
853-882): resolve and merge the plugin's config fragment (with the
shallow extend merge) when present, re-resolve theme functions, reset
the variant table to the built-in resolution, and run the handler's
registrations. -/
def loadPlugin (s : Processor) (ps : PluginSpec) : Processor :=
  let s1 :=
    match ps with
    | .mk (some cfg) _ =>
      let cfg1 := _resolveFunction cfg
      let cfg2 := combineConfigC cfg1 s.config
      let cfg3 :=
        match cfg2.theme with
        | some pluginTheme =>
          match lookupA pluginTheme "extend" with
          | some ext =>
            if ext.isObj then cfg2.withTheme (some (pluginExtendMerge pluginTheme ext.entriesOf))
            else cfg2
          | none => cfg2
        | none => cfg2
      { s with config := cfg3 }
    | .mk none _ => s
  let s2 := { s1 with config := _resolveFunction s1.config }
  let s3 := { s2 with variants := resolveVariantsBuiltin s2.config }
  match ps with
  | .mk _ ops => loadPluginOps s3 ops

/-- `Processor._loadVariables()` (`src/lib/index.ts` 224-228): turn
`theme('vars')` into a `:root` preflight rule with one custom property
per scalar entry (`addBase` stamps base-layer metadata; the `@screen`
rewrite of `addBase` has nothing to rewrite here because the generated
rule carries no at-rules). -/
def loadVariables (s : Processor) : Processor :=
  match s.config.theme with
  | some t =>
    match lookupA t "vars" with
    | some (.obj vars) =>
      let props := vars.filterMap
        (fun p => match p.2 with
          | .str v => some { name := "--" ++ p.1, value := some v : Property }
          | _ => none)
      let st : Style :=
        { selector := some ":root", property := props
          meta := { group := "base", mtype := "plugin", order := 10 } }
      { s with pluginPreflights := addPluginCacheA s.pluginPreflights ":root" [st] }
    | _ => s
  | none => s

/-- The `corePlugins` resolution at the end of `resolveConfig`
(`src/lib/index.ts` 246): an array config is an allow-list, an object
config overrides the defaults derived from the plugin ordering table. -/
def coreStep (s : Processor) : Processor :=
  match s.config.corePluginsCfg with
  | some (.arr names) => { s with pluginCore := some (names.map (fun n => (n, true))) }
  | some (.obj o) => { s with pluginCore := some (mergeA (defaultCoreNames.map (fun n => (n, true))) o) }
  | none => s

/-- `Processor.resolveConfig(config, presets)` (`src/lib/index.ts`
238-248): resolve the config (the user's `exclude` key is injected
explicitly, so it always wins over the presets), load every plugin,
evaluate the remaining theme functions, merge the built-in variant
resolution over the accumulated variant table (the built-ins are spread
last), re-derive the known-variant cache, synthesize the `:root` rule
from `theme('vars')`, and resolve the core-plugin map. -/
def resolveConfig (s : Processor) (config : Option Config) (presets : Config) : Processor :=
  let userCfg := config.getD Config.empty
  let c1 := (_resolveConfig userCfg presets).withExclude userCfg.exclude
  let s1 := { s with config := c1 }
  let s2 := c1.plugins.foldl loadPlugin s1
  let s3 := { s2 with config := _resolveFunction s2.config }
  let s4 := { s3 with variants := mergeA s3.variants (resolveVariantsBuiltin s3.config) }
  let s5 := { s4 with cacheVariants := s4.variants.map (fun p => p.1) }
  let s6 := loadVariables s5
  coreStep s6

end Processor

/-- Modelled from the spec: `baseConfig` (`config`, not under `src/`) —
the default configuration: responsive screens, the `:` separator, and
vendor prefixing enabled. -/
def baseConfig : Config :=
  .mk []
    (some [("screens", .obj [("sm", .str "640px"), ("md", .str "768px")])])
    [] none none (some ":") none none (some true)

/-! ### Concrete fixtures used by witnesses and counterexamples -/

/-- A concrete Processor state of the shape the constructor produces
from the default base config: the resolved config, the built-in variant
table and the known-variant cache derived from it. -/
def procT : Processor :=
  { config := .mk []
      (some [("screens", .obj [("sm", .str "640px"), ("md", .str "768px")])])
      [] none none (some ":") none none (some true)
    variants :=
      [ ("sm", Style.new.atRule "@media (min-width: 640px)"),
        ("md", Style.new.atRule "@media (min-width: 768px)"),
        ("hover", Style.new.pseudoClass "hover"),
        ("focus", Style.new.pseudoClass "focus"),
        ("active", Style.new.pseudoClass "active"),
        ("dark", Style.new.parent ".dark") ]
    cacheVariants := ["sm", "md", "hover", "focus", "active", "dark"] }

/-- A small concrete style. -/
def styleT : Style :=
  { selector := some ".x", property := [{ name := "color", value := some "red" }] }

/-! ### Shared helper lemmas -/

theorem mapM_eq_map_of_some {α β : Type} (g : α → Option β) (g' : α → β) :
    ∀ l : List α, (∀ x ∈ l, g x = some (g' x)) → l.mapM g = some (l.map g')
  | [], _ => rfl
  | x :: rest, h => by
    have hx := h x (by simp)
    have ih := mapM_eq_map_of_some g g' rest (fun y hy => h y (by simp [hy]))
    rw [List.mapM_cons, hx, ih]
    rfl

theorem Delta.app_def (a b : Delta) :
    a ++ b = { success := a.success ++ b.success, ignored := a.ignored ++ b.ignored,
               sheet := a.sheet ++ b.sheet } := rfl

theorem Delta.app_assoc (a b c : Delta) : a ++ b ++ c = a ++ (b ++ c) := by
  simp [Delta.app_def]

theorem Delta.nil_app (a : Delta) : ({} : Delta) ++ a = a := by
  simp [Delta.app_def]

theorem Delta.app_nil (a : Delta) : a ++ ({} : Delta) = a := by
  simp [Delta.app_def]

theorem mapM_lookup_eq_filterMap {α : Type} (f : String → Option α) :
    ∀ vs : List String, (∀ v ∈ vs, (f v).isSome) → vs.mapM f = some (vs.filterMap f)
  | [], _ => rfl
  | v :: rest, h => by
    obtain ⟨a, ha⟩ := Option.isSome_iff_exists.mp (h v (by simp))
    have ih := mapM_lookup_eq_filterMap f rest (fun y hy => h y (by simp [hy]))
    rw [List.mapM_cons, ha, ih]
    simp [List.filterMap_cons, ha]

/-- The variant fold of `wrapWithVariants`, on the looked-up variant
styles. -/
def wrapFoldPair (varStyles : List Style) : Style × List String :=
  varStyles.foldl
    (fun (acc : Style × List String) cur =>
      (acc.1.extend cur,
        if acc.1.isAtrule then acc.2 ++ [acc.1.atRules.headD ""] else acc.2))
    (Style.new, [])

/-- The tail of one `wrapWithVariants` style step: extend the folded
wrapper with the target, re-wrap containers, record collected
at-rules. -/
def finishWrap (style : Style) (folded : Style × List String) : Style :=
  let wrapped := folded.1.extend style
  let wrapped := if style.kind = .container then Style.newContainer.extend wrapped else wrapped
  if folded.2 ≠ [] then { wrapped with meta := { wrapped.meta with variants := folded.2 } }
  else wrapped

/-- The total form of one `wrapWithVariants` style step, equal to
`wrapOne` whenever every variant name in the list is registered. -/
def wrapOneT (s : Processor) (vs : List String) (style : Style) : Style :=
  if style.kind = .keyframes then style
  else finishWrap style (wrapFoldPair (vs.filterMap (fun i => lookupA s.variants i)))

theorem wrapOne_eq_total (s : Processor) (vs : List String) (style : Style)
    (h : ∀ v ∈ vs, (lookupA s.variants v).isSome) :
    Processor.wrapOne s vs style = some (wrapOneT s vs style) := by
  unfold Processor.wrapOne wrapOneT finishWrap wrapFoldPair
  by_cases hk : style.kind = .keyframes
  · simp [hk]
  · rw [mapM_lookup_eq_filterMap _ vs h]
    simp [hk]

theorem wrapFold_fst (g : Style × List String → Style → List String) :
    ∀ (l : List Style) (p : Style × List String),
      (l.foldl (fun acc cur => (acc.1.extend cur, g acc cur)) p).1 =
        l.foldl (fun a c => a.extend c) p.1
  | [], _ => rfl
  | c :: rest, p => wrapFold_fst g rest (p.1.extend c, g p c)

theorem Style.extend_property (a b : Style) : (a.extend b).property = a.property ++ b.property := rfl

theorem Style.extend_atRules (a b : Style) : (a.extend b).atRules = a.atRules ++ b.atRules := rfl

theorem foldExtend_property : ∀ (l : List Style) (init : Style),
    (l.foldl (fun a c => a.extend c) init).property =
      init.property ++ (l.map Style.property).flatten
  | [], init => by simp
  | c :: rest, init => by
    rw [List.foldl_cons, foldExtend_property rest (init.extend c), Style.extend_property]
    simp

theorem foldExtend_atRules : ∀ (l : List Style) (init : Style),
    (l.foldl (fun a c => a.extend c) init).atRules =
      init.atRules ++ (l.map Style.atRules).flatten
  | [], init => by
    simp
  | c :: rest, init => by
    rw [List.foldl_cons, foldExtend_atRules rest (init.extend c), Style.extend_atRules]
    simp

theorem finishWrap_property (style : Style) (p : Style × List String) :
    (finishWrap style p).property = p.1.property ++ style.property := by
  unfold finishWrap
  by_cases hc : style.kind = .container <;> by_cases hv : p.2 = [] <;>
    simp [hc, hv, Style.extend_property, Style.newContainer]

theorem finishWrap_atRules (style : Style) (p : Style × List String) :
    (finishWrap style p).atRules = p.1.atRules ++ style.atRules := by
  unfold finishWrap
  by_cases hc : style.kind = .container <;> by_cases hv : p.2 = [] <;>
    simp [hc, hv, Style.extend_atRules, Style.newContainer]

theorem wrapFoldPair_fst (l : List Style) :
    (wrapFoldPair l).1 = l.foldl (fun a c => a.extend c) Style.new :=
  wrapFold_fst _ l (Style.new, [])

theorem wrapOneT_keyframes (s : Processor) (vs : List String) (st : Style)
    (hk : st.kind = .keyframes) : wrapOneT s vs st = st := by
  simp [wrapOneT, hk]

theorem wrapOneT_property (s : Processor) (vs : List String) (st : Style)
    (hk : st.kind ≠ .keyframes) :
    (wrapOneT s vs st).property =
      ((vs.filterMap (fun v => lookupA s.variants v)).map Style.property).flatten ++ st.property ∧
    (wrapOneT s vs st).atRules =
      ((vs.filterMap (fun v => lookupA s.variants v)).map Style.atRules).flatten ++ st.atRules := by
  unfold wrapOneT
  rw [if_neg hk]
  constructor
  · rw [finishWrap_property, wrapFoldPair_fst, foldExtend_property]
    rfl
  · rw [finishWrap_atRules, wrapFoldPair_fst, foldExtend_atRules]
    rfl

/-- C7: for every Keyframes style and every variant-name list (whose
names are registered), `wrapWithVariants` returns the keyframes fragment
unchanged — no selector rewrite and no at-rule wrapper is applied to it —
while the non-keyframe styles of the same call are wrapped by the
variant generators' styles (their declarations and at-rules are
prepended to the target's). -/
theorem wrapWithVariants_keyframes_pass (s : Processor) (vs : List String) (styles : List Style)
    (h : ∀ v ∈ vs, (lookupA s.variants v).isSome) :
    ∃ out, s.wrapWithVariants vs (.inr styles) = some out ∧ out.length = styles.length ∧
      ∀ (i : Nat) (h1 : i < styles.length) (h2 : i < out.length),
        ((styles.get ⟨i, h1⟩).kind = .keyframes → out.get ⟨i, h2⟩ = styles.get ⟨i, h1⟩) ∧
        ((styles.get ⟨i, h1⟩).kind ≠ .keyframes →
          (out.get ⟨i, h2⟩).property =
            ((vs.filterMap (fun v => lookupA s.variants v)).map Style.property).flatten ++
              (styles.get ⟨i, h1⟩).property ∧
          (out.get ⟨i, h2⟩).atRules =
            ((vs.filterMap (fun v => lookupA s.variants v)).map Style.atRules).flatten ++
              (styles.get ⟨i, h1⟩).atRules) := by
  by_cases hvs : vs = []
  · refine ⟨styles, ?_, rfl, ?_⟩
    · simp [Processor.wrapWithVariants, StyleOrList.toList, hvs]
    · intro i h1 h2
      refine ⟨fun _ => rfl, fun _ => ?_⟩
      simp [hvs]
  · refine ⟨styles.map (wrapOneT s vs), ?_, by simp, ?_⟩
    · unfold Processor.wrapWithVariants
      show (if vs = [] then some styles else styles.mapM (Processor.wrapOne s vs)) = _
      rw [if_neg hvs]
      exact mapM_eq_map_of_some _ _ styles (fun st _ => wrapOne_eq_total s vs st h)
    · intro i h1 h2
      have hg : (styles.map (wrapOneT s vs)).get ⟨i, h2⟩ = wrapOneT s vs (styles.get ⟨i, h1⟩) := by
        simp
      constructor
      · intro hk
        rw [hg, wrapOneT_keyframes s vs _ hk]
      · intro hk
        rw [hg]
        exact wrapOneT_property s vs _ hk

/-- C7 witness: a keyframes fragment passes a `hover` wrap unchanged
while a plain fragment in the same call is wrapped. -/
theorem wrapWithVariants_keyframes_pass_witness :
    ∃ out, procT.wrapWithVariants ["hover"] (.inr [{ styleT with kind := .keyframes }, styleT]) =
        some out ∧ out.length = 2 := by
  obtain ⟨out, h1, h2, _⟩ :=
    wrapWithVariants_keyframes_pass procT ["hover"] [{ styleT with kind := .keyframes }, styleT]
      (by intro v hv; simp at hv; subst hv; decide)
  exact ⟨out, h1, h2⟩

/-- C10: `wrapWithVariants` called with an empty variant-name list is
the identity on the styles: the input comes back unchanged as a list,
with no wrapper, selector change, or metadata update. -/
theorem wrapWithVariants_empty_identity (s : Processor) (styles : List Style) (st : Style) :
    s.wrapWithVariants [] (.inr styles) = some styles ∧
    s.wrapWithVariants [] (.inl st) = some [st] := by
  exact ⟨rfl, rfl⟩

/-- C8 counterexample: with no configured `important` and the forced
value being the empty selector string — a falsy value in JavaScript —
`markAsImportant` returns the style unchanged instead of wrapping it
under that ancestor selector, as the claim predicts for every selector
string. -/
theorem markAsImportant_empty_string_counterexample :
    ({} : Processor).markAsImportant styleT (.str "") = styleT ∧
    ({} : Processor).markAsImportant styleT (.str "") ≠ styleT.parent "" := by
  exact ⟨rfl, by decide⟩

/-- C8 amended: `markAsImportant` resolves the effective important value
(a truthy `force` wins, else the configured value, else false); a
boolean `true` sets the important flag on the rule and on every
declaration (and does not wrap); a *nonempty* selector string wraps the
rule under that ancestor selector (and does not set the flags); a falsy
value — `false`, absent, or the empty string — returns the style
unchanged. -/
theorem markAsImportant_branches (s : Processor) (style : Style) (force : BoolOrStr) :
    ((if truthy force then force else s.config.importantOpt.getD (.bool false)) = .bool true →
      (s.markAsImportant style force).important = true ∧
      (∀ p ∈ (s.markAsImportant style force).property, p.important = true) ∧
      (s.markAsImportant style force).parentSelectors = style.parentSelectors ∧
      (s.markAsImportant style force).selector = style.selector) ∧
    (∀ t, (if truthy force then force else s.config.importantOpt.getD (.bool false)) = .str t →
      t ≠ "" →
      s.markAsImportant style force = style.parent t) ∧
    (truthy (if truthy force then force else s.config.importantOpt.getD (.bool false)) = false →
      s.markAsImportant style force = style) := by
  unfold Processor.markAsImportant
  refine ⟨?_, ?_, ?_⟩
  · intro h
    rw [h]
    simp [truthy]
  · intro t h ht
    rw [h]
    simp [truthy, ht]
  · intro h
    rw [if_neg]
    simp [h]

/-- C8 witness: the three branches at concrete inputs — boolean `true`
sets the flags, a nonempty selector string wraps, `false` with no
configured value leaves the style unchanged. -/
theorem markAsImportant_branches_witness :
    (({} : Processor).markAsImportant styleT (.bool true)).important = true ∧
    ({} : Processor).markAsImportant styleT (.str ".wrap") = styleT.parent ".wrap" ∧
    ({} : Processor).markAsImportant styleT (.bool false) = styleT := by
  refine ⟨((markAsImportant_branches {} styleT (.bool true)).1 (by decide)).1, ?_, ?_⟩
  · exact (markAsImportant_branches {} styleT (.str ".wrap")).2.1 ".wrap" (by decide) (by decide)
  · exact (markAsImportant_branches {} styleT (.bool false)).2.2 (by decide)

/-- A dynamic generator that always accepts. -/
def genAccept : Utility → Output :=
  fun _ => some (.inl { property := [{ name := "margin", value := some "1px" }] })

/-- A dynamic generator that always declines. -/
def genDecline : Utility → Output := fun _ => none

/-- The state after registering two generators under the same key. -/
def procDyn : Processor := (({} : Processor).addDynamic "k" genAccept).addDynamic "k" genDecline

/-- Invoke the dynamic generator stored under a key, as extraction
does when the key matches. -/
def invokeDyn (s : Processor) (key : String) (fuel : Nat) (u : Utility) : Option Output :=
  match lookupA s.pluginDynamic key with
  | some entry => evalDyn s.pluginDynamic fuel entry u
  | none => some none

theorem evalDyn_self_chained (table : List (String × DynEntry)) (key : String)
    (g : Utility → Output) (h : lookupA table key = some (.chained key g)) :
    ∀ fuel u, evalDyn table fuel (.chained key g) u = none := by
  intro fuel
  induction fuel with
  | zero => intro u; rfl
  | succ n ih =>
    intro u
    simp only [evalDyn, h, ih u]

/-- C5 (code bug): after `addDynamic` re-registers a generator under an
existing key, invoking the stored generator never terminates for any
fuel — the re-registration closure reads its own table slot back and
recurses — so it can produce neither generator's output; a single
registration, by contrast, answers immediately. -/
theorem addDynamic_rereg_diverges :
    (∀ fuel u, invokeDyn procDyn "k" fuel u = none) ∧
    (∀ fuel u, invokeDyn (({} : Processor).addDynamic "k" genAccept) "k" fuel u =
      some (some (.inl (({ property := [{ name := "margin", value := some "1px" }] } : Style).updateMeta
        "utilities" "plugin" 20001)))) := by
  constructor
  · intro fuel u
    show evalDyn procDyn.pluginDynamic fuel (.chained "k" genDecline) u = none
    exact evalDyn_self_chained procDyn.pluginDynamic "k" genDecline rfl fuel u
  · intro fuel u
    cases fuel <;> rfl

theorem compile_skip (s : Processor) (x pfx : String) (sc : Bool) (hI : Option (String → Output))
    (out : Option String) (fuel : Nat)
    (h : Processor.compileName pfx x out ∈ s.cacheClasses) :
    s.compile x pfx sc true hI out fuel =
      some ({ success := [], ignored := [], className := some (Processor.compileName pfx x out),
              styleSheet := StyleSheet.new }, s) := by
  unfold Processor.compile
  rw [if_pos ⟨rfl, h⟩]

theorem compile_normal (s : Processor) (x pfx : String) (sc ig : Bool)
    (hI : Option (String → Output)) (out : Option String) (fuel : Nat) (d : Delta)
    (hskip : ¬ (ig = true ∧ Processor.compileName pfx x out ∈ s.cacheClasses))
    (hast : Processor.compileAstGo s fuel sc hI ("." ++ Processor.compileName pfx x out)
      (parseClasses s.configSeparator s.cacheVariants x) = some d) :
    s.compile x pfx sc ig hI out fuel =
      some ({ success := d.success,
              ignored := d.ignored,
              className := if d.success ≠ [] then some (Processor.compileName pfx x out) else none,
              styleSheet := (StyleSheet.mk d.sheet (s.config.prefixerOpt == some true)).sortbyGroup.combine },
            if ig = true ∧ d.success ≠ []
            then { s with cacheClasses := s.cacheClasses ++ [Processor.compileName pfx x out] }
            else s) := by
  unfold Processor.compile
  rw [if_neg hskip]
  simp only [hast]
  by_cases hd : d.success = [] <;> simp [hd]

theorem compile_none (s : Processor) (x pfx : String) (sc ig : Bool)
    (hI : Option (String → Output)) (out : Option String) (fuel : Nat)
    (hskip : ¬ (ig = true ∧ Processor.compileName pfx x out ∈ s.cacheClasses))
    (hast : Processor.compileAstGo s fuel sc hI ("." ++ Processor.compileName pfx x out)
      (parseClasses s.configSeparator s.cacheVariants x) = none) :
    s.compile x pfx sc ig hI out fuel = none := by
  unfold Processor.compile
  rw [if_neg hskip]
  simp only [hast]

/-- C1: the class name `compile` synthesizes is a pure function of the
input — the prefix plus the hash of the whitespace-normalized class
string, unless a caller-supplied `outputClassName` is given — so two
calls on the same Processor state agree on it; and when
`ignoreGenerated` is set and that name was already emitted (in
particular, after a first call that returned it), the call
short-circuits to empty `success` and `ignored` lists together with
that same class name and an untouched state. -/
theorem compile_idempotent_hash (s : Processor) (x pfx : String) (sc : Bool)
    (hI : Option (String → Output)) (out : Option String) (fuel : Nat) :
    (Processor.compileName pfx x out ∈ s.cacheClasses →
      s.compile x pfx sc true hI out fuel =
        some ({ success := [], ignored := [], className := some (Processor.compileName pfx x out),
                styleSheet := StyleSheet.new }, s)) ∧
    (∀ r s' c, s.compile x pfx sc true hI out fuel = some (r, s') → r.className = some c →
      c = Processor.compileName pfx x out ∧
      s'.compile x pfx sc true hI out fuel =
        some ({ success := [], ignored := [], className := some c,
                styleSheet := StyleSheet.new }, s')) := by
  constructor
  · intro h
    exact compile_skip s x pfx sc hI out fuel h
  · intro r s' c h1 hc
    by_cases hmem : Processor.compileName pfx x out ∈ s.cacheClasses
    · rw [compile_skip s x pfx sc hI out fuel hmem] at h1
      have h2 := Option.some.inj h1
      have hr := congrArg Prod.fst h2
      have hs := congrArg Prod.snd h2
      simp only at hr hs
      subst hs
      rw [← hr] at hc
      have hcn : c = Processor.compileName pfx x out := by
        simpa using hc.symm
      refine ⟨hcn, ?_⟩
      rw [hcn]
      exact compile_skip s x pfx sc hI out fuel hmem
    · have hskip : ¬ (true = true ∧ Processor.compileName pfx x out ∈ s.cacheClasses) := by
        simp [hmem]
      rcases hast : Processor.compileAstGo s fuel sc hI
          ("." ++ Processor.compileName pfx x out)
          (parseClasses s.configSeparator s.cacheVariants x) with _ | d
      · rw [compile_none s x pfx sc true hI out fuel hskip hast] at h1
        exact absurd h1 (by simp)
      · rw [compile_normal s x pfx sc true hI out fuel d hskip hast] at h1
        have h2 := Option.some.inj h1
        have hr := congrArg Prod.fst h2
        have hs := congrArg Prod.snd h2
        simp only at hr hs
        by_cases hd : d.success = []
        · rw [← hr] at hc
          simp [hd] at hc
        · have hcn : c = Processor.compileName pfx x out := by
            rw [← hr] at hc
            simp only [hd, ne_eq, not_false_iff, if_true] at hc
            · exact (Option.some.inj hc).symm
          refine ⟨hcn, ?_⟩
          have hmem2 : Processor.compileName pfx x out ∈ s'.cacheClasses := by
            rw [← hs]
            simp [hd]
          rw [hcn]
          exact compile_skip s' x pfx sc hI out fuel hmem2

/-- The class name `compile` synthesizes for the input `p-2`. -/
def cnP2 : String := Processor.compileName "windi-" "p-2" none

/-- The style `compile` emits for `p-2` under the synthesized class. -/
def styleP2C : Style :=
  { selector := some ("." ++ cnP2), property := [{ name := "padding", value := some "0.5rem" }] }

/-- The result record of `procT.compile "p-2"`. -/
def resP2C : Processor.CompileResult :=
  { success := ["p-2"], ignored := [], className := some cnP2,
    styleSheet := { children := [styleP2C], prefixerFlag := true } }

/-- `procT` after a first `compile "p-2"` call with `ignoreGenerated`. -/
def procT1 : Processor := { procT with cacheClasses := [cnP2] }

/-- C1 witness: after a successful first `compile "p-2"` call recorded
the name, the second call returns it with empty lists. -/
theorem compile_idempotent_hash_witness :
    procT1.compile "p-2" "windi-" false true none none 9 =
      some ({ success := [], ignored := [], className := some cnP2,
              styleSheet := StyleSheet.new }, procT1) :=
  ((compile_idempotent_hash procT "p-2" "windi-" false none none 9).2
    resP2C procT1 cnP2 rfl rfl).2

/-- C9 counterexample: with the synthesized name already in the
emitted-classes cache and `ignoreGenerated` set, `compile`
short-circuits and returns the hash-derived class name together with an
empty `success` list — not `className = undefined`, as the claim
requires whenever `success` is empty. -/
theorem compile_skip_empty_success_counterexample :
    (procT1.compile "p-2" "windi-" false true none none 9).map
        (fun rs => (rs.1.success, rs.1.className)) = some ([], some cnP2) ∧
    some cnP2 ≠ (none : Option String) := by
  constructor
  · rw [compile_skip procT1 "p-2" "windi-" false none none 9 (by decide)]
    rfl
  · simp

/-- C9 amended: outside the `ignoreGenerated` idempotent-skip path
(which returns the cached hash-derived name with an empty `success`
list), `compile` returns no class name whenever the success list is
empty — any returned name is the synthesized one — and the
emitted-classes cache is extended, by exactly the synthesized name, iff
at least one token succeeded and `ignoreGenerated` is set. -/
theorem compile_name_iff_success (s : Processor) (x pfx : String) (sc ig : Bool)
    (hI : Option (String → Output)) (out : Option String) (fuel : Nat)
    (r : Processor.CompileResult) (s' : Processor)
    (hskip : ¬ (ig = true ∧ Processor.compileName pfx x out ∈ s.cacheClasses))
    (h : s.compile x pfx sc ig hI out fuel = some (r, s')) :
    (r.success = [] → r.className = none) ∧
    (∀ c, r.className = some c → c = Processor.compileName pfx x out) ∧
    s'.cacheClasses = s.cacheClasses ++
      (if ig = true ∧ r.success ≠ [] then [Processor.compileName pfx x out] else []) := by
  rcases hast : Processor.compileAstGo s fuel sc hI
      ("." ++ Processor.compileName pfx x out)
      (parseClasses s.configSeparator s.cacheVariants x) with _ | d
  · rw [compile_none s x pfx sc ig hI out fuel hskip hast] at h
    exact absurd h (by simp)
  · rw [compile_normal s x pfx sc ig hI out fuel d hskip hast] at h
    have h2 := Option.some.inj h
    have hr := congrArg Prod.fst h2
    have hs := congrArg Prod.snd h2
    simp only at hr hs
    subst hr
    subst hs
    by_cases hd : d.success = [] <;> by_cases hig : ig = true <;> simp [hd, hig]

/-- C9 witness: a successful `compile "p-2"` with `ignoreGenerated`
extends the emitted-classes cache by exactly the synthesized name. -/
theorem compile_name_iff_success_witness :
    procT1.cacheClasses = procT.cacheClasses ++ [cnP2] := by
  have h := (compile_name_iff_success procT "p-2" "windi-" false true none none 9
    resP2C procT1 (by decide) rfl).2.2
  simpa [resP2C] using h

theorem lookupA_cons {α : Type} (p : String × α) (l : List (String × α)) (k : String) :
    lookupA (p :: l) k = if p.1 = k then some p.2 else lookupA l k := by
  by_cases h : p.1 = k <;> simp [lookupA, List.find?, h]

theorem lookupA_append {α : Type} (l1 l2 : List (String × α)) (k : String) :
    lookupA (l1 ++ l2) k =
      match lookupA l1 k with | some v => some v | none => lookupA l2 k := by
  induction l1 with
  | nil => simp [lookupA]
  | cons p rest ih =>
    by_cases h : p.1 = k <;> simp [lookupA_cons, h, ih]

theorem lookupA_map_replace {α : Type} (k : String) (v : α) :
    ∀ l : List (String × α), (lookupA l k).isSome →
      lookupA (l.map (fun p => if p.1 = k then (k, v) else p)) k = some v := by
  intro l
  induction l with
  | nil => intro h; simp [lookupA] at h
  | cons p rest ih =>
    intro h
    by_cases hp : p.1 = k
    · simp [hp, lookupA_cons]
    · rw [List.map_cons, if_neg hp, lookupA_cons, if_neg hp]
      exact ih (by simpa [lookupA_cons, hp] using h)

theorem lookupA_insertA_self {α : Type} (l : List (String × α)) (k : String) (v : α) :
    lookupA (insertA l k v) k = some v := by
  unfold insertA
  by_cases hs : (lookupA l k).isSome
  · rw [if_pos hs]
    exact lookupA_map_replace k v l hs
  · rw [if_neg hs, lookupA_append]
    have : lookupA l k = none := by
      cases h : lookupA l k
      · rfl
      · rw [h] at hs; simp at hs
    simp [this, lookupA_cons]

theorem lookupA_map_override {α : Type} (b : List (String × α)) (k : String) :
    ∀ a : List (String × α),
      lookupA (a.map (fun p => match lookupA b p.1 with | some v => (p.1, v) | none => p)) k =
        match lookupA a k with
        | none => none
        | some v => match lookupA b k with | some w => some w | none => some v := by
  intro a
  induction a with
  | nil => simp [lookupA]
  | cons p rest ih =>
    by_cases hp : p.1 = k
    · cases hb : lookupA b p.1 <;>
        simp [List.map_cons, lookupA_cons, hp, hb, hp ▸ hb]
    · cases hb : lookupA b p.1 <;>
        simp [List.map_cons, lookupA_cons, hb, hp, ih]

theorem lookupA_filter_new {α : Type} (a : List (String × α)) (k : String) :
    ∀ b : List (String × α),
      lookupA (b.filter (fun p => ! hasKeyA a p.1)) k =
        if hasKeyA a k then none else lookupA b k := by
  intro b
  induction b with
  | nil => simp [lookupA]
  | cons p rest ih =>
    by_cases hp : p.1 = k
    · by_cases hk : hasKeyA a k
      · simp [List.filter_cons, hp, hk, ih]
      · simp [List.filter_cons, hp, hk, ih, lookupA_cons]
    · by_cases hkp : hasKeyA a p.1 <;>
        simp [List.filter_cons, hkp, ih, lookupA_cons, hp]

theorem lookupA_mergeA {α : Type} (a b : List (String × α)) (k : String) :
    lookupA (mergeA a b) k =
      match lookupA b k with
      | some w => some w
      | none => lookupA a k := by
  unfold mergeA
  rw [lookupA_append, lookupA_map_override, lookupA_filter_new]
  cases ha : lookupA a k <;> cases hb : lookupA b k <;>
    simp [hasKeyA, ha, hb]

theorem Config.plugins_withExclude (c : Config) (e : Option (String → Bool)) :
    (c.withExclude e).plugins = c.plugins := by
  cases c
  rfl

theorem _resolveConfig_no_presets (u p : Config) (h : u.presets = []) :
    _resolveConfig u p = resolveConfigCore u p := by
  cases u with
  | mk ps t pl px i sep e c pr =>
    simp only [Config.presets] at h
    subst h
    unfold _resolveConfig
    simp

theorem resolveConfigCore_plugins (u p : Config) :
    (resolveConfigCore u p).plugins =
      match u.plugins with | [] => p.plugins | l => l := by
  unfold resolveConfigCore mergeConfigs
  simp [Config.plugins]

theorem loadVariables_variants (s : Processor) : (s.loadVariables).variants = s.variants := by
  unfold Processor.loadVariables
  repeat' split
  all_goals rfl

theorem coreStep_variants (s : Processor) : (s.coreStep).variants = s.variants := by
  unfold Processor.coreStep
  repeat' split
  all_goals rfl

theorem loadVariables_config (s : Processor) : (s.loadVariables).config = s.config := by
  unfold Processor.loadVariables
  repeat' split
  all_goals rfl

theorem coreStep_config (s : Processor) : (s.coreStep).config = s.config := by
  unfold Processor.coreStep
  repeat' split
  all_goals rfl

/-- `Processor.resolveConfig` specialised to a preset-free user config,
with the preset recursion already reduced to the theme-merge core. -/
def resolveConfigNP (s : Processor) (cfg presets : Config) : Processor :=
  let c1 := (resolveConfigCore cfg presets).withExclude cfg.exclude
  let s1 := { s with config := c1 }
  let s2 := c1.plugins.foldl Processor.loadPlugin s1
  let s3 := { s2 with config := _resolveFunction s2.config }
  let s4 := { s3 with variants := mergeA s3.variants (resolveVariantsBuiltin s3.config) }
  let s5 := { s4 with cacheVariants := s4.variants.map (fun (p : String × Style) => p.1) }
  let s6 := s5.loadVariables
  s6.coreStep

theorem resolveConfig_eq_NP (s : Processor) (cfg presets : Config) (h : cfg.presets = []) :
    s.resolveConfig (some cfg) presets = resolveConfigNP s cfg presets := by
  unfold Processor.resolveConfig resolveConfigNP
  simp only [Option.getD, _resolveConfig_no_presets cfg presets h]

/-- The custom variant wrapper a plugin registers in the C4 scenario. -/
def customHover : Style := Style.new.pseudoClass "custom-hover"

/-- A config whose single plugin registers a `hover` variant, colliding
with the built-in `hover`. -/
def cfgC4 : Config :=
  .mk [] none [.mk none [.addVariantOp "hover" customHover]] none none none none none none

/-- The Processor resolved from that config over the base config. -/
def procC4 : Processor := ({} : Processor).resolveConfig (some cfgC4) baseConfig

/-- C4 counterexample: after resolution, the variant table maps `hover`
to the built-in pseudo-class wrapper — `resolveConfig` spreads the
built-in resolution last — not to the wrapper the plugin registered via
`addVariant`, contrary to the claim that the later (plugin)
registration wins. -/
theorem addVariant_override_counterexample :
    lookupA procC4.variants "hover" = some (Style.new.pseudoClass "hover") ∧
    Style.new.pseudoClass "hover" ≠ customHover := by
  constructor
  · show lookupA (({} : Processor).resolveConfig (some cfgC4) baseConfig).variants "hover" = _
    rw [resolveConfig_eq_NP ({} : Processor) cfgC4 baseConfig rfl]
    decide
  · decide

/-- C4 amended: for a name registered both by the built-in variant
resolver and by a plugin's `addVariant`, the table consulted after
resolution maps it to the built-in wrapper, because `resolveConfig`
merges the built-in resolution over the accumulated table last; the
plugin-registered wrapper is consulted only for names the built-in
resolver does not produce. -/
theorem addVariant_override_amended (s : Processor) (cfg presets : Config)
    (n : String) (st : Style)
    (hpre : cfg.presets = [])
    (hp : cfg.plugins = [PluginSpec.mk none [.addVariantOp n st]]) :
    lookupA (s.resolveConfig (some cfg) presets).variants n =
      match lookupA (resolveVariantsBuiltin (s.resolveConfig (some cfg) presets).config) n with
      | some b => some b
      | none => some st := by
  rw [resolveConfig_eq_NP s cfg presets hpre]
  have hv : (resolveConfigNP s cfg presets).variants =
      mergeA
        (insertA (resolveVariantsBuiltin
          (_resolveFunction ((resolveConfigCore cfg presets).withExclude cfg.exclude))) n st)
        (resolveVariantsBuiltin (_resolveFunction
          (_resolveFunction ((resolveConfigCore cfg presets).withExclude cfg.exclude)))) := by
    simp only [resolveConfigNP]
    rw [Config.plugins_withExclude, resolveConfigCore_plugins, hp]
    rw [coreStep_variants, loadVariables_variants]
    rfl
  have hcfg : (resolveConfigNP s cfg presets).config =
      _resolveFunction (_resolveFunction ((resolveConfigCore cfg presets).withExclude cfg.exclude)) := by
    simp only [resolveConfigNP]
    rw [Config.plugins_withExclude, resolveConfigCore_plugins, hp]
    rw [coreStep_config, loadVariables_config]
    rfl
  rw [hv, hcfg, lookupA_mergeA, lookupA_insertA_self]
  cases lookupA (resolveVariantsBuiltin
      (_resolveFunction (_resolveFunction ((resolveConfigCore cfg presets).withExclude cfg.exclude)))) n <;>
    rfl

/-- A config whose single plugin registers a variant name the built-in
resolver does not produce. -/
def cfgC4b : Config :=
  .mk [] none [.mk none [.addVariantOp "fancy" customHover]] none none none none none none

/-- C4 witness (for the amended claim): a plugin-registered variant
whose name has no built-in counterpart survives resolution. -/
theorem addVariant_override_amended_witness :
    lookupA (({} : Processor).resolveConfig (some cfgC4b) baseConfig).variants "fancy" =
      some customHover := by
  have h := addVariant_override_amended ({} : Processor) cfgC4b baseConfig "fancy" customHover
    rfl rfl
  rw [h]
  rw [resolveConfig_eq_NP ({} : Processor) cfgC4b baseConfig rfl]
  decide

/-! ### C3: exclude precedence -/

/-- A Processor like `procT` whose config excludes the selector `p-2`
(a token extraction would otherwise turn into a padding rule). -/
def cfgEx : Config :=
  .mk []
    (some [("screens", .obj [("sm", .str "640px"), ("md", .str "768px")])])
    [] none none (some ":") (some (fun sel => sel == "p-2")) none (some true)

/-- `procT` with that excluding config installed. -/
def procEx : Processor := { procT with config := cfgEx }

/-- C3: in both interpret and compile, a token whose synthesized
selector matches the configured `exclude` pattern is recorded in the
`ignored` list and contributes nothing to the returned stylesheet (and
in compile mode no class name is emitted): the exclude test
short-circuits before extraction, so the result does not depend on what
`extract` would produce for the token. -/
theorem exclude_short_circuit (s : Processor) (fuel : Nat) (hI : Option (String → Output))
    (sc : Bool) (pfx : String) (out : Option String) (X c raw : String)
    (vs : List String) (imp : Bool)
    (hparse : parseClasses s.configSeparator s.cacheVariants X = [.utility (some c) vs imp raw])
    (hc : c ≠ "")
    (hex : s.excluded raw = true) :
    s.interpret X false hI fuel =
      some ({ success := [], ignored := [raw],
              styleSheet := { children := [], prefixerFlag := s.config.prefixerOpt == some true } }, s) ∧
    s.compile X pfx sc false hI out fuel =
      some ({ success := [], ignored := [raw], className := none,
              styleSheet := { children := [], prefixerFlag := s.config.prefixerOpt == some true } }, s) := by
  have hgI : Processor.gStyleI s fuel hI c vs raw imp = some { ignored := [raw] } := by
    unfold Processor.gStyleI
    rw [if_pos hex]
  have hgC : Processor.gStyleC s fuel sc hI ("." ++ Processor.compileName pfx X out)
      (s.removePrefix c) vs raw imp = some { ignored := [raw] } := by
    unfold Processor.gStyleC
    rw [if_pos hex]
  constructor
  · unfold Processor.interpret
    rw [hparse]
    have hg : Processor.gAstI s hI false fuel [Element.utility (some c) vs imp raw] s.cacheUtilities
        = some ({ ignored := [raw] }, s.cacheUtilities) := by
      simp only [Processor.gAstI, Bool.false_eq_true, false_and, if_false, Element.raw]
      rw [if_pos hc, hgI]
      rfl
    simp only [hg]
    rfl
  · have hast : Processor.compileAstGo s fuel sc hI ("." ++ Processor.compileName pfx X out)
        (parseClasses s.configSeparator s.cacheVariants X) = some { ignored := [raw] } := by
      rw [hparse]
      simp only [Processor.compileAstGo]
      rw [if_pos hc, hgC]
      simp only [Processor.compileAstGo]
      rfl
    have h := compile_normal s X pfx sc false hI out fuel { ignored := [raw] } (by simp) hast
    rw [h]
    rfl

/-- C3 witness: with `p-2` excluded by config, both modes ignore the
token (which would otherwise extract into a padding rule) and emit
nothing. -/
theorem exclude_short_circuit_witness :
    procEx.interpret "p-2" false none 9 =
      some ({ success := [], ignored := ["p-2"],
              styleSheet := StyleSheet.mk [] (procEx.config.prefixerOpt == some true) }, procEx) ∧
    procEx.compile "p-2" "windi-" false false none none 9 =
      some ({ success := [], ignored := ["p-2"], className := none,
              styleSheet := StyleSheet.mk [] (procEx.config.prefixerOpt == some true) }, procEx) :=
  exclude_short_circuit procEx 9 none false "windi-" none "p-2" "p-2" "p-2" [] false
    rfl (by decide) (by decide)

/-! ### C6: theme functions after config resolution -/

/-- A top-level theme entry in resolvable shape: a theme function whose
body is itself function-free, or a function-free value.  `mapTopCall`
(the worker of `_resolveFunction`) turns such an entry into a
function-free one. -/
def tvTopOk : ThemeVal → Bool
  | .func b => b.funcFree
  | v => v.funcFree

theorem mem_insertA {α : Type} {l : List (String × α)} {k : String} {v : α} {p : String × α}
    (hp : p ∈ insertA l k v) : p ∈ l ∨ p = (k, v) := by
  unfold insertA at hp
  by_cases h : (lookupA l k).isSome
  · rw [if_pos h] at hp
    rcases List.mem_map.mp hp with ⟨q, hq, hqe⟩
    by_cases hqk : q.1 = k
    · right
      rw [if_pos hqk] at hqe
      exact hqe.symm
    · left
      rw [if_neg hqk] at hqe
      exact hqe ▸ hq
  · rw [if_neg h] at hp
    rcases List.mem_append.mp hp with h1 | h2
    · exact Or.inl h1
    · right
      simpa using h2

theorem all_foldl_insertA {α : Type} (P : String × α → Prop) :
    ∀ (xs l0 : List (String × α)), (∀ p ∈ l0, P p) → (∀ q ∈ xs, P q) →
      ∀ p ∈ xs.foldl (fun th q => insertA th q.1 q.2) l0, P p := by
  intro xs
  induction xs with
  | nil =>
    intro l0 h0 _ p hp
    exact h0 p hp
  | cons q rest ih =>
    intro l0 h0 hx p hp
    simp only [List.foldl_cons] at hp
    refine ih (insertA l0 q.1 q.2) ?_ (fun r hr => hx r (by simp [hr])) p hp
    intro r hr
    rcases mem_insertA hr with h | h
    · exact h0 r h
    · rw [h, Prod.mk.eta]
      exact hx q (by simp)

theorem lookupA_eq_none_of_ne {α : Type} (l : List (String × α)) (k : String)
    (h : ∀ p ∈ l, p.1 ≠ k) : lookupA l k = none := by
  induction l with
  | nil => rfl
  | cons p rest ih =>
    rw [lookupA_cons, if_neg (h p (by simp))]
    exact ih (fun q hq => h q (by simp [hq]))

theorem funcFreeEntries_mapTopCall (l : List (String × ThemeVal))
    (h : ∀ p ∈ l, tvTopOk p.2 = true) : funcFreeEntries (mapTopCall l) = true := by
  induction l with
  | nil => rfl
  | cons p rest ih =>
    have hp := h p (by simp)
    have hr := ih (fun q hq => h q (by simp [hq]))
    simp only [mapTopCall, List.map_cons, funcFreeEntries, Bool.and_eq_true]
    refine ⟨?_, ?_⟩
    · cases hv : p.2 with
      | str z => rfl
      | func b =>
        rw [hv] at hp
        simpa [tvTopOk, ThemeVal.funcFree] using hp
      | obj es =>
        rw [hv] at hp
        simpa [tvTopOk] using hp
    · simpa [mapTopCall] using hr

theorem Config.theme_withExclude (c : Config) (e : Option (String → Bool)) :
    (c.withExclude e).theme = c.theme := by
  cases c
  rfl

theorem Config.theme_withTheme (c : Config) (t : Option ThemeDict) :
    (c.withTheme t).theme = t := by
  cases c
  rfl

theorem resolveConfigCore_theme (u p : Config) :
    (resolveConfigCore u p).theme = some (reduceFunction
      (match u.theme with
       | some t => (removeKeyA t "extend").foldl (fun th q => insertA th q.1 q.2) (p.theme.getD [])
       | none => p.theme.getD [])
      (match u.theme with
       | some t => match lookupA t "extend" with | some (.obj d) => d | _ => []
       | none => [])) := rfl

theorem _resolveFunction_theme_of (c : Config) (t : ThemeDict)
    (hth : c.theme = some t) (hext : lookupA t "extend" = none) :
    (_resolveFunction c).theme = some (mapTopCall t) := by
  simp only [_resolveFunction, hth, hext, Config.theme_withTheme]

/-- A config whose theme holds a theme function NESTED one level down:
`theme.colors.primary` is still a function. -/
def cfgC6 : Config :=
  .mk [] (some [("colors", .obj [("primary", .func (.str "#fff"))])])
    [] none none none none none none

/-- C6 counterexample: after `resolveConfig` completes, the nested
entry `theme.colors.primary` is still an unevaluated theme function —
`_resolveFunction` only evaluates functions at the top level of `theme`
and `theme.extend`, so the resolved theme is not function-free. -/
theorem theme_function_survives_counterexample :
    funcFreeEntries (((({} : Processor).resolveConfig (some cfgC6) Config.empty).config).theme.getD [])
      = false := by
  rw [resolveConfig_eq_NP ({} : Processor) cfgC6 Config.empty rfl]
  decide

/-- C6 amended: `_resolveFunction` evaluates theme functions only at
the top level of `theme` (and of `theme.extend`); the invariant that no
function survives resolution therefore holds on the top-level scope it
actually covers.  For a preset-free, plugin-free config whose theme
entries (and the base theme entries) are top-level-resolvable — no
`extend` fragment, every entry either function-free or a function with
a function-free body — the resolved theme is entirely function-free. -/
theorem theme_functions_resolved_amended (s : Processor) (cfg presets : Config)
    (hpre : cfg.presets = [])
    (hpl : cfg.plugins = [])
    (hppl : presets.plugins = [])
    (hu : ∀ p ∈ cfg.theme.getD [], p.1 ≠ "extend" ∧ tvTopOk p.2 = true)
    (hp : ∀ p ∈ presets.theme.getD [], p.1 ≠ "extend" ∧ tvTopOk p.2 = true) :
    funcFreeEntries (((s.resolveConfig (some cfg) presets).config).theme.getD []) = true := by
  rw [resolveConfig_eq_NP s cfg presets hpre]
  have hcfg : (resolveConfigNP s cfg presets).config =
      _resolveFunction ((resolveConfigCore cfg presets).withExclude cfg.exclude) := by
    simp only [resolveConfigNP]
    rw [Config.plugins_withExclude, resolveConfigCore_plugins, hpl, hppl]
    rw [coreStep_config, loadVariables_config]
    rfl
  rw [hcfg]
  cases hct : cfg.theme with
  | none =>
    have hth : ((resolveConfigCore cfg presets).withExclude cfg.exclude).theme
        = some (presets.theme.getD []) := by
      rw [Config.theme_withExclude, resolveConfigCore_theme]
      simp only [hct]
      rfl
    have hext : lookupA (presets.theme.getD []) "extend" = none :=
      lookupA_eq_none_of_ne _ _ (fun p hp2 => (hp p hp2).1)
    rw [_resolveFunction_theme_of _ _ hth hext]
    simp only [Option.getD_some]
    exact funcFreeEntries_mapTopCall _ (fun p hp2 => (hp p hp2).2)
  | some t =>
    rw [hct] at hu
    simp only [Option.getD_some] at hu
    have hextu : lookupA t "extend" = none :=
      lookupA_eq_none_of_ne _ _ (fun p hp2 => (hu p hp2).1)
    have hth : ((resolveConfigCore cfg presets).withExclude cfg.exclude).theme
        = some ((removeKeyA t "extend").foldl (fun th q => insertA th q.1 q.2)
            (presets.theme.getD [])) := by
      rw [Config.theme_withExclude, resolveConfigCore_theme]
      simp only [hct, hextu]
      rfl
    have hal : ∀ p ∈ (removeKeyA t "extend").foldl (fun th q => insertA th q.1 q.2)
        (presets.theme.getD []), p.1 ≠ "extend" ∧ tvTopOk p.2 = true := by
      refine all_foldl_insertA _ _ _ hp ?_
      intro q hq
      have hq1 : q ∈ List.filter (fun p => decide (p.1 ≠ "extend")) t := hq
      exact hu q (List.mem_of_mem_filter hq1)
    have hext : lookupA ((removeKeyA t "extend").foldl (fun th q => insertA th q.1 q.2)
        (presets.theme.getD [])) "extend" = none :=
      lookupA_eq_none_of_ne _ _ (fun p hp2 => (hal p hp2).1)
    rw [_resolveFunction_theme_of _ _ hth hext]
    simp only [Option.getD_some]
    exact funcFreeEntries_mapTopCall _ (fun p hp2 => (hal p hp2).2)

/-- A config whose theme carries a top-level theme function with a
function-free body. -/
def cfgC6w : Config :=
  .mk [] (some [("spacing", .func (.obj [("1", .str "0.25rem")]))])
    [] none none none none none none

/-- C6 witness (for the amended claim): the top-level theme function of
`cfgC6w` is gone after resolution. -/
theorem theme_functions_resolved_amended_witness :
    funcFreeEntries (((({} : Processor).resolveConfig (some cfgC6w) Config.empty).config).theme.getD [])
      = true :=
  theme_functions_resolved_amended ({} : Processor) cfgC6w Config.empty rfl rfl rfl
    (by decide) (by decide)

/-! ### C2: interpret and compile never throw -/

/-- Whether an element is a parenthesised group. -/
def Element.isGroup : Element → Bool
  | .group _ _ _ _ => true
  | _ => false

theorem peelGo_subset (known : List String) :
    ∀ parts, ∀ v ∈ (peelGo known parts).1, v ∈ known := by
  intro parts
  induction parts with
  | nil =>
    intro v hv
    simp [peelGo] at hv
  | cons x rest ih =>
    cases rest with
    | nil =>
      intro v hv
      simp [peelGo] at hv
    | cons y ys =>
      intro v hv
      by_cases hx : x ∈ known
      · simp only [peelGo, if_pos hx] at hv
        rcases List.mem_cons.mp hv with h | h
        · exact h ▸ hx
        · exact ih v h
      · simp only [peelGo, if_neg hx] at hv
        simp at hv

theorem parseToken_ok (sep : String) (known : List String) (tok : String) :
    (parseToken sep known tok).isGroup = false ∧
    ∀ v ∈ (parseToken sep known tok).variants, v ∈ known := by
  unfold parseToken
  rcases hpeel : peelGo known (splitOnStr tok sep) with ⟨vs, restParts⟩
  have hsub : ∀ v ∈ vs, v ∈ known := by
    intro v hv
    have h2 := peelGo_subset known (splitOnStr tok sep)
    rw [hpeel] at h2
    exact h2 v hv
  simp only [hpeel]
  repeat' split
  all_goals refine ⟨rfl, ?_⟩
  all_goals intro v hv
  all_goals first
    | exact hsub v hv
    | simp [Element.variants] at hv

theorem parseClasses_ok (sep : String) (known : List String) (src : String) :
    ∀ e ∈ parseClasses sep known src, e.isGroup = false ∧ ∀ v ∈ e.variants, v ∈ known := by
  intro e he
  rcases List.mem_map.mp he with ⟨tok, _, rfl⟩
  exact parseToken_ok sep known tok

theorem evalDyn_isSome (table : List (String × DynEntry)) (fuel : Nat) (e : DynEntry)
    (u : Utility) (h : e.isChained = false) : (evalDyn table fuel e u).isSome = true := by
  cases e with
  | base g => cases fuel <;> rfl
  | plain g layer order => cases fuel <;> rfl
  | chained key g => simp [DynEntry.isChained] at h

theorem tryDynamic_isSome (s : Processor) (fuel : Nat) (base : String) :
    ∀ l : List (String × DynEntry), (∀ p ∈ l, DynEntry.isChained p.2 = false) →
      (Processor.tryDynamic s fuel base l).isSome = true := by
  intro l
  induction l with
  | nil =>
    intro _
    rfl
  | cons p rest ih =>
    intro hl
    rcases p with ⟨key, entry⟩
    simp only [Processor.tryDynamic]
    by_cases hk : isPreStr key base = true
    · rw [if_pos hk]
      obtain ⟨o, ho⟩ := Option.isSome_iff_exists.mp
        (evalDyn_isSome s.pluginDynamic fuel entry { raw := base } (hl (key, entry) (by simp)))
      rw [ho]
      cases o with
      | none => exact ih (fun q hq => hl q (by simp [hq]))
      | some out => rfl
    · rw [if_neg hk]
      exact ih (fun q hq => hl q (by simp [hq]))

theorem extract_isSome (s : Processor) (fuel : Nat) (c : String) (ac : Bool)
    (pfx : Option String)
    (hdyn : ∀ p ∈ s.pluginDynamic, DynEntry.isChained p.2 = false) :
    (s.extract fuel c ac pfx).isSome = true := by
  have htd : ∀ base, (Processor.tryDynamic s fuel base (dynamicUtilities ++ s.pluginDynamic)).isSome = true := by
    intro base
    refine tryDynamic_isSome s fuel base _ ?_
    intro p hp
    rcases List.mem_append.mp hp with h | h
    · simp [dynamicUtilities] at h
      rw [h]
      rfl
    · exact hdyn p h
  have hbody : ∀ b : Option String, (match b with
      | none => (some none : Option Output)
      | some base =>
        match s.lookupStaticAll base with
        | some styles => some (some (Sum.inr (styles.map (Processor.withCommentIf ac base))))
        | none => Processor.tryDynamic s fuel base (dynamicUtilities ++ s.pluginDynamic)).isSome
      = true := by
    intro b
    cases b with
    | none => rfl
    | some base =>
      cases hs : s.lookupStaticAll base with
      | some styles => simp [hs]
      | none =>
        simp only [hs]
        exact htd base
  unfold Processor.extract
  exact hbody _

theorem wrapWithVariants_isSome (s : Processor) (vs : List String) (styles : StyleOrList)
    (h : ∀ v ∈ vs, (lookupA s.variants v).isSome = true) :
    (s.wrapWithVariants vs styles).isSome = true := by
  simp only [Processor.wrapWithVariants]
  by_cases hv : vs = []
  · rw [if_pos hv]
    rfl
  · rw [if_neg hv]
    rw [mapM_eq_map_of_some (Processor.wrapOne s vs) (wrapOneT s vs) _
      (fun st2 _ => wrapOne_eq_total s vs st2 (fun v hv2 => h v hv2))]
    rfl

theorem gStyleI_isSome (s : Processor) (fuel : Nat) (c : String) (vs : List String)
    (sel : String) (imp : Bool)
    (hdyn : ∀ p ∈ s.pluginDynamic, DynEntry.isChained p.2 = false)
    (hvs : ∀ v ∈ vs, (lookupA s.variants v).isSome = true) :
    (Processor.gStyleI s fuel none c vs sel imp).isSome = true := by
  unfold Processor.gStyleI
  by_cases he : s.excluded sel = true
  · rw [if_pos he]
    rfl
  · rw [if_neg he]
    by_cases hsp : vs ≠ [] ∧ (hasKeyA s.pluginUtilities sel ∨ hasKeyA s.pluginComponents sel)
    · rw [if_pos hsp]
      rfl
    · rw [if_neg hsp]
      obtain ⟨o, ho⟩ := Option.isSome_iff_exists.mp (extract_isSome s fuel c false s.config.pfx hdyn)
      rw [ho]
      cases o with
      | none => rfl
      | some result =>
        cases result with
        | inl st =>
          have hw2 := wrapWithVariants_isSome s vs
            (Sum.inl (s.markAsImportant (st.withSelector ("." ++ cssEscape sel)) (BoolOrStr.bool imp))) hvs
          obtain ⟨w, hw⟩ := Option.isSome_iff_exists.mp hw2
          simp only [hw]
          rfl
        | inr l =>
          have hw2 := wrapWithVariants_isSome s vs
            (Sum.inr (l.map (fun i =>
              if i.kind = StyleKind.keyframes then i
              else s.markAsImportant (i.withSelector ("." ++ cssEscape sel)) (BoolOrStr.bool imp)))) hvs
          obtain ⟨w, hw⟩ := Option.isSome_iff_exists.mp hw2
          simp only [hw]
          rfl

theorem gStyleC_isSome (s : Processor) (fuel : Nat) (sc : Bool) (bs c : String)
    (vs : List String) (sel : String) (imp : Bool)
    (hdyn : ∀ p ∈ s.pluginDynamic, DynEntry.isChained p.2 = false)
    (hvs : ∀ v ∈ vs, (lookupA s.variants v).isSome = true) :
    (Processor.gStyleC s fuel sc none bs c vs sel imp).isSome = true := by
  unfold Processor.gStyleC
  by_cases he : s.excluded sel = true
  · rw [if_pos he]
    rfl
  · rw [if_neg he]
    by_cases hsp : vs ≠ [] ∧ (hasKeyA s.pluginUtilities sel ∨ hasKeyA s.pluginComponents sel)
    · rw [if_pos hsp]
      rfl
    · rw [if_neg hsp]
      obtain ⟨o, ho⟩ := Option.isSome_iff_exists.mp (extract_isSome s fuel c sc none hdyn)
      rw [ho]
      cases o with
      | none => rfl
      | some result =>
        cases result with
        | inl st =>
          have hw2 := wrapWithVariants_isSome s vs
            (Sum.inl (s.markAsImportant (st.withSelector bs) (BoolOrStr.bool imp))) hvs
          obtain ⟨w, hw⟩ := Option.isSome_iff_exists.mp hw2
          simp only [hw]
          rfl
        | inr l =>
          have hw2 := wrapWithVariants_isSome s vs
            (Sum.inr (l.map (fun i =>
              if i.kind = StyleKind.keyframes then { i with meta := { i.meta with order := 20 } }
              else s.markAsImportant (i.withSelector bs) (BoolOrStr.bool imp)))) hvs
          obtain ⟨w, hw⟩ := Option.isSome_iff_exists.mp hw2
          simp only [hw]
          rfl

theorem gAstI_isSome (s : Processor) (ip : Bool) (fuel : Nat)
    (halias : s.pluginAlias = [])
    (hdyn : ∀ p ∈ s.pluginDynamic, DynEntry.isChained p.2 = false) :
    ∀ (ast : List Element) (cu : List String),
      (∀ e ∈ ast, e.isGroup = false ∧ ∀ v ∈ e.variants, (lookupA s.variants v).isSome = true) →
      (Processor.gAstI s none ip fuel ast cu).isSome = true := by
  intro ast
  induction ast with
  | nil =>
    intro cu _
    simp only [Processor.gAstI]
    rfl
  | cons e rest ih =>
    intro cu hok
    have he := hok e (by simp)
    have hrest : ∀ e2 ∈ rest, e2.isGroup = false ∧
        ∀ v ∈ e2.variants, (lookupA s.variants v).isSome = true :=
      fun e2 h2 => hok e2 (by simp [h2])
    simp only [Processor.gAstI]
    by_cases hcache : ip = true ∧ e.raw ∈ cu
    · rw [if_pos hcache]
      exact ih cu hrest
    · rw [if_neg hcache]
      rcases e with ⟨content, uvs, ui, ur⟩ | ⟨ch, gvs, gi, gr⟩ | ⟨c, avs, ai, ar⟩
      · have hvs : ∀ v ∈ uvs, (lookupA s.variants v).isSome = true := by
          intro v hv
          exact he.2 v (by simpa [Element.variants] using hv)
        obtain ⟨p2, hp2⟩ := Option.isSome_iff_exists.mp
          (ih (if ip = true then cu ++ [ur] else cu) hrest)
        rcases p2 with ⟨d2, cu2⟩
        cases content with
        | none =>
          simp only [Element.raw, hp2]
          rfl
        | some c =>
          by_cases hc : c ≠ ""
          · obtain ⟨d, hd⟩ := Option.isSome_iff_exists.mp
              (gStyleI_isSome s fuel c uvs ur ui hdyn hvs)
            simp only [Element.raw, hd, hp2]
            rw [if_pos hc]
            rfl
          · simp only [Element.raw, hp2]
            rw [if_neg hc]
            rfl
      · have : False := by simpa [Element.isGroup] using he.1
        exact this.elim
      · obtain ⟨p2, hp2⟩ := Option.isSome_iff_exists.mp
          (ih (if ip = true then cu ++ [ar] else cu) hrest)
        rcases p2 with ⟨d2, cu2⟩
        rw [halias]
        simp only [Element.raw, lookupA, List.find?, hp2]
        rfl

theorem compileAstGo_isSome (s : Processor) (fuel : Nat) (sc : Bool) (bs : String)
    (hdyn : ∀ p ∈ s.pluginDynamic, DynEntry.isChained p.2 = false) :
    ∀ ast : List Element,
      (∀ e ∈ ast, e.isGroup = false ∧ ∀ v ∈ e.variants, (lookupA s.variants v).isSome = true) →
      (Processor.compileAstGo s fuel sc none bs ast).isSome = true := by
  intro ast
  induction ast with
  | nil =>
    intro _
    rfl
  | cons e rest ih =>
    intro hok
    have he := hok e (by simp)
    have hrest : ∀ e2 ∈ rest, e2.isGroup = false ∧
        ∀ v ∈ e2.variants, (lookupA s.variants v).isSome = true :=
      fun e2 h2 => hok e2 (by simp [h2])
    obtain ⟨d2, hd2⟩ := Option.isSome_iff_exists.mp (ih hrest)
    simp only [Processor.compileAstGo]
    rcases e with ⟨content, uvs, ui, ur⟩ | ⟨ch, gvs, gi, gr⟩ | ⟨c, avs, ai, ar⟩
    · have hvs : ∀ v ∈ uvs, (lookupA s.variants v).isSome = true := by
        intro v hv
        exact he.2 v (by simpa [Element.variants] using hv)
      cases content with
      | none =>
        simp only [hd2]
        rfl
      | some c =>
        by_cases hc : c ≠ ""
        · obtain ⟨d, hd⟩ := Option.isSome_iff_exists.mp
            (gStyleC_isSome s fuel sc bs (s.removePrefix c) uvs ur ui hdyn hvs)
          simp only [hd, hd2]
          rw [if_pos hc]
          rfl
        · simp only [hd2]
          rw [if_neg hc]
          rfl
    · have : False := by simpa [Element.isGroup] using he.1
      exact this.elim
    · simp only [hd2]
      rfl

/-- C2: with a well-formed variant cache (every cached variant name has
a registered wrapper), no registered aliases, and no chained dynamic
generators (re-registration makes the stored closure diverge — the C5
code bug), `interpret` and `compile` always return a result object for
EVERY input class string — unrecognised tokens, excluded selectors and
declined generators never fail the call; and at the per-token level an
excluded selector or a declined/unrecognised extraction surfaces
exactly as the selector's membership in the `ignored` list, with empty
`success` and no stylesheet contribution, in both modes. -/
theorem never_throws (s : Processor) (X pfx : String) (sc ig ip : Bool)
    (out : Option String) (fuel : Nat)
    (hwf : ∀ v ∈ s.cacheVariants, (lookupA s.variants v).isSome = true)
    (halias : s.pluginAlias = [])
    (hdyn : ∀ p ∈ s.pluginDynamic, DynEntry.isChained p.2 = false) :
    (s.interpret X ip none fuel).isSome = true ∧
    (s.compile X pfx sc ig none out fuel).isSome = true ∧
    (∀ fuel2 c vs sel imp, ¬(vs ≠ [] ∧ (hasKeyA s.pluginUtilities sel ∨ hasKeyA s.pluginComponents sel)) →
      s.excluded sel = true ∨ s.extract fuel2 c false s.config.pfx = some none →
      Processor.gStyleI s fuel2 none c vs sel imp = some { ignored := [sel] }) ∧
    (∀ fuel2 bs c vs sel imp, ¬(vs ≠ [] ∧ (hasKeyA s.pluginUtilities sel ∨ hasKeyA s.pluginComponents sel)) →
      s.excluded sel = true ∨ s.extract fuel2 c sc none = some none →
      Processor.gStyleC s fuel2 sc none bs c vs sel imp = some { ignored := [sel] }) := by
  have hparsed : ∀ e ∈ parseClasses s.configSeparator s.cacheVariants X,
      e.isGroup = false ∧ ∀ v ∈ e.variants, (lookupA s.variants v).isSome = true := by
    intro e he
    have h2 := parseClasses_ok s.configSeparator s.cacheVariants X e he
    exact ⟨h2.1, fun v hv => hwf v (h2.2 v hv)⟩
  refine ⟨?_, ?_, ?_, ?_⟩
  · unfold Processor.interpret
    obtain ⟨p2, hp2⟩ := Option.isSome_iff_exists.mp
      (gAstI_isSome s ip fuel halias hdyn (parseClasses s.configSeparator s.cacheVariants X)
        s.cacheUtilities hparsed)
    rcases p2 with ⟨d, cu⟩
    simp only [hp2]
    rfl
  · unfold Processor.compile
    by_cases hskip : ig = true ∧ Processor.compileName pfx X out ∈ s.cacheClasses
    · rw [if_pos hskip]
      rfl
    · rw [if_neg hskip]
      obtain ⟨d, hd⟩ := Option.isSome_iff_exists.mp
        (compileAstGo_isSome s fuel sc ("." ++ Processor.compileName pfx X out) hdyn
          (parseClasses s.configSeparator s.cacheVariants X) hparsed)
      simp only [hd]
      rfl
  · intro fuel2 c vs sel imp hsp hdecl
    unfold Processor.gStyleI
    rcases hdecl with he | hex
    · rw [if_pos he]
    · by_cases he : s.excluded sel = true
      · rw [if_pos he]
      · rw [if_neg he, if_neg hsp, hex]
        rfl
  · intro fuel2 bs c vs sel imp hsp hdecl
    unfold Processor.gStyleC
    rcases hdecl with he | hex
    · rw [if_pos he]
    · by_cases he : s.excluded sel = true
      · rw [if_pos he]
      · rw [if_neg he, if_neg hsp, hex]
        rfl

/-- C2 witness: on an input mixing an unknown token with a
variant-carrying known utility, both modes return a result object. -/
theorem never_throws_witness :
    (procT.interpret "junk hover:p-2" false none 9).isSome = true ∧
    (procT.compile "junk hover:p-2" "windi-" false false none none 9).isSome = true :=
  ⟨(never_throws procT "junk hover:p-2" "windi-" false false false none 9
      (by decide) rfl (by decide)).1,
   (never_throws procT "junk hover:p-2" "windi-" false false false none 9
      (by decide) rfl (by decide)).2.1⟩

end Windi
